import Mathlib

/-!
# Verification of the ERPV2 project-line allocation engine

Shallow embedding of `src/api/projects.ts` (the allocation engine of the
ERPV2 repository) and proofs about it.

Modelling conventions, fixed once and used throughout:

* JavaScript `number` amounts and quantities are modelled as `ℚ`.  The
  source helper `round2(n) = Math.round((n + Number.EPSILON) * 100) / 100`
  is modelled as exact rounding of `n` to 2 decimals, half away from zero
  toward `+∞` (JS `Math.round(x) = ⌊x + 1/2⌋`).  The `Number.EPSILON`
  summand only compensates for binary floating-point representation error
  and has no counterpart in exact rational arithmetic.
* Calendar days (ISO `YYYY-MM-DD` strings in the source) are modelled as
  epoch day numbers `ℕ`.  For valid ISO day strings, JS lexicographic
  string sorting coincides with chronological order, and the source's
  `Math.round((next.getTime() - prev.getTime()) / 86400000)` is exactly
  the difference of the two day numbers (the rounding absorbs DST
  offsets), so `diff === 1` becomes `next = prev + 1`.
* The relational store is modelled as in-memory lists; `single()` errors
  unless exactly one row matches, `maybeSingle()` errors if more than one
  row matches.  Fresh ids are drawn from counters.  A failed operation is
  `none`.
-/

namespace ERPV2

/-- `round2` from `src/api/projects.ts`:
`Math.round((n + Number.EPSILON) * 100) / 100`, i.e. rounding to two
decimals with halves rounded toward `+∞` (JS `Math.round(x) = ⌊x + 1/2⌋`).
`Rat.floor` is used so that the definition evaluates by `decide`. -/
def round2 (n : ℚ) : ℚ := ((n * 100 + 1/2).floor : ℚ) / 100

theorem round2_eq_intFloor (n : ℚ) : round2 n = (⌊n * 100 + 1/2⌋ : ℚ) / 100 := by
  have h : (n * 100 + 1/2).floor = ⌊n * 100 + 1/2⌋ := by
    rw [Rat.floor_def', Rat.floor_def]
  rw [round2, h]

/-- A rational is a whole number of cents (two-decimal value). -/
def IsCent (q : ℚ) : Prop := ∃ k : ℤ, q = (k : ℚ) / 100

theorem isCent_round2 (q : ℚ) : IsCent (round2 q) := ⟨_, rfl⟩

theorem isCent_zero : IsCent 0 := ⟨0, by norm_num⟩

theorem isCent_natCast (n : ℕ) : IsCent (n : ℚ) :=
  ⟨n * 100, by push_cast; ring⟩

theorem isCent_add {a b : ℚ} (ha : IsCent a) (hb : IsCent b) : IsCent (a + b) := by
  obtain ⟨j, rfl⟩ := ha; obtain ⟨k, rfl⟩ := hb
  exact ⟨j + k, by push_cast; ring⟩

theorem isCent_sub {a b : ℚ} (ha : IsCent a) (hb : IsCent b) : IsCent (a - b) := by
  obtain ⟨j, rfl⟩ := ha; obtain ⟨k, rfl⟩ := hb
  exact ⟨j - k, by push_cast; ring⟩

theorem isCent_sum {l : List ℚ} (h : ∀ a ∈ l, IsCent a) : IsCent l.sum := by
  induction l with
  | nil => simpa using isCent_zero
  | cons a t ih =>
    simp only [List.sum_cons]
    exact isCent_add (h a (by simp)) (ih fun b hb => h b (by simp [hb]))

/-- `round2` is the identity on whole numbers of cents. -/
theorem round2_isCent {q : ℚ} (h : IsCent q) : round2 q = q := by
  obtain ⟨k, rfl⟩ := h
  have h100 : (k : ℚ) / 100 * 100 = (k : ℚ) := by field_simp
  rw [round2_eq_intFloor, h100, Int.floor_int_add]
  norm_num

/-- Subtracting a whole number of cents commutes with `round2`. -/
theorem round2_sub_isCent (a : ℚ) {b : ℚ} (hb : IsCent b) :
    round2 (a - b) = round2 a - b := by
  obtain ⟨k, rfl⟩ := hb
  have h1 : (a - (k : ℚ) / 100) * 100 + 1/2 = a * 100 + 1/2 - (k : ℚ) := by ring
  rw [round2_eq_intFloor, round2_eq_intFloor, h1, Int.floor_sub_int]
  push_cast
  ring

/-- Adding a whole number of cents commutes with `round2`. -/
theorem round2_add_isCent (a : ℚ) {b : ℚ} (hb : IsCent b) :
    round2 (a + b) = round2 a + b := by
  have := round2_sub_isCent a (b := -b) (by obtain ⟨k, rfl⟩ := hb; exact ⟨-k, by push_cast; ring⟩)
  simpa using this

/-- `round2 (a - round2 a) = 0`: the residual left after rounding a value
to cents itself rounds to zero. -/
theorem round2_self_residual (a : ℚ) : round2 (a - round2 a) = 0 := by
  have h1 : (⌊a * 100 + 1/2⌋ : ℚ) ≤ a * 100 + 1/2 := Int.floor_le _
  have h2 : a * 100 + 1/2 - 1 < (⌊a * 100 + 1/2⌋ : ℚ) := Int.sub_one_lt_floor _
  have hr : round2 a * 100 = (⌊a * 100 + 1/2⌋ : ℚ) := by rw [round2_eq_intFloor]; field_simp
  have heq : (a - round2 a) * 100 + 1/2 = a * 100 + 1/2 - round2 a * 100 := by ring
  have hfloor : ⌊(a - round2 a) * 100 + 1/2⌋ = 0 := by
    rw [Int.floor_eq_zero_iff, Set.mem_Ico, heq, hr]
    constructor
    · linarith
    · linarith
  rw [round2_eq_intFloor, hfloor]
  norm_num

/-! ## The date-range compactor (`groupIntoConsecutiveRanges`) -/

/-- One compacted range, `{ start, end, qty, days }` in the source
(`end` is a reserved word in Lean, rendered `stop`). -/
structure DayRange where
  start : Nat
  stop : Nat
  qty : Nat
  days : List Nat
deriving Repr, DecidableEq

/-- `Array.from(new Set(daysIso.filter(Boolean))).sort()`: deduplicate
(keeping first occurrences) and sort ascending.  `filter(Boolean)` only
removes empty strings, which have no counterpart among valid day
numbers. -/
def sortedDedup (daysIso : List Nat) : List Nat :=
  List.insertionSort (· ≤ ·) daysIso.dedup

/-- The accumulation loop of `groupIntoConsecutiveRanges`: walks the
sorted unique days maintaining the current run `(curStart, curEnd,
bucket)` and the completed `ranges`.  `diff === 1` is `d = curEnd + 1`
for day numbers. -/
def groupRangesLoop : List Nat → Nat → Nat → List Nat → List DayRange → List DayRange
  | [], curStart, curEnd, bucket, ranges =>
      ranges ++ [⟨curStart, curEnd, bucket.length, bucket⟩]
  | d :: rest, curStart, curEnd, bucket, ranges =>
      if d = curEnd + 1 then
        groupRangesLoop rest curStart d (bucket ++ [d]) ranges
      else
        groupRangesLoop rest d d [d] (ranges ++ [⟨curStart, curEnd, bucket.length, bucket⟩])

/-- `groupIntoConsecutiveRanges` from `src/api/projects.ts`. -/
def groupIntoConsecutiveRanges (daysIso : List Nat) : List DayRange :=
  match sortedDedup daysIso with
  | [] => []
  | u0 :: rest => groupRangesLoop rest u0 u0 [u0] []

/-! ### Properties of the compactor -/

theorem groupRangesLoop_append (u : List Nat) :
    ∀ (cs ce : Nat) (b : List Nat) (acc : List DayRange),
      groupRangesLoop u cs ce b acc = acc ++ groupRangesLoop u cs ce b [] := by
  induction u with
  | nil => intro cs ce b acc; simp [groupRangesLoop]
  | cons d rest ih =>
    intro cs ce b acc
    by_cases h : d = ce + 1
    · simp only [groupRangesLoop, if_pos h]
      exact ih ..
    · simp only [groupRangesLoop, if_neg h]
      have e1 := ih d d [d] (acc ++ [DayRange.mk cs ce b.length b])
      have e2 := ih d d [d] ([] ++ [DayRange.mk cs ce b.length b])
      rw [e1, e2]
      simp [List.append_assoc]

theorem groupRangesLoop_spec (u : List Nat) :
    ∀ (cs ce : Nat) (b : List Nat),
      List.Chain (· < ·) ce u → b = List.range' cs (ce + 1 - cs) → cs ≤ ce →
      (∀ r ∈ groupRangesLoop u cs ce b [],
          cs ≤ r.start ∧ r.start ≤ r.stop ∧ r.qty = r.stop + 1 - r.start ∧
          r.days = List.range' r.start (r.stop + 1 - r.start)) ∧
      List.Pairwise (fun x y => x.stop + 1 < y.start) (groupRangesLoop u cs ce b []) ∧
      (groupRangesLoop u cs ce b []).flatMap (fun r => r.days) = b ++ u := by
  induction u with
  | nil =>
    intro cs ce b _ hb hcs
    refine ⟨?_, by simp [groupRangesLoop], by simp [groupRangesLoop]⟩
    intro r hr
    simp only [groupRangesLoop, List.nil_append, List.mem_singleton] at hr
    subst hr
    refine ⟨le_refl _, hcs, ?_, ?_⟩
    · simp [hb, List.length_range']
    · exact hb
  | cons d rest ih =>
    intro cs ce b hchain hb hcs
    rw [List.chain_cons] at hchain
    obtain ⟨hlt, hchain'⟩ := hchain
    by_cases h : d = ce + 1
    · simp only [groupRangesLoop, if_pos h]
      have hb' : b ++ [d] = List.range' cs (d + 1 - cs) := by
        subst h
        rw [hb]
        have h1 : ce + 1 + 1 - cs = (ce + 1 - cs) + 1 := by omega
        rw [h1, List.range'_concat]
        have h2 : cs + 1 * (ce + 1 - cs) = ce + 1 := by omega
        rw [h2]
      have hcs' : cs ≤ d := by omega
      obtain ⟨A1, A2, A3⟩ := ih cs d (b ++ [d]) hchain' hb' hcs'
      refine ⟨A1, A2, ?_⟩
      rw [A3]
      simp
    · simp only [groupRangesLoop, if_neg h]
      rw [groupRangesLoop_append]
      have hd2 : ce + 2 ≤ d := by omega
      have hspec := ih d d [d] hchain' (by simp) (le_refl d)
      obtain ⟨H1, H2, H3⟩ := hspec
      refine ⟨?_, ?_, ?_⟩
      · intro r hr
        simp only [List.nil_append, List.cons_append, List.mem_cons] at hr
        rcases hr with rfl | hr
        · refine ⟨le_refl _, hcs, by simp [hb, List.length_range'], hb⟩
        · obtain ⟨h1, h2, h3, h4⟩ := H1 r (by simpa using hr)
          exact ⟨by omega, h2, h3, h4⟩
      · simp only [List.nil_append, List.singleton_append]
        rw [List.pairwise_cons]
        refine ⟨?_, H2⟩
        intro r hr
        have := (H1 r hr).1
        simp only
        omega
      · simp only [List.nil_append, List.singleton_append, List.flatMap_cons]
        rw [H3]
        simp

theorem sortedDedup_sorted_le (l : List Nat) :
    List.Sorted (· ≤ ·) (sortedDedup l) :=
  List.sorted_insertionSort _ _

theorem sortedDedup_nodup (l : List Nat) : (sortedDedup l).Nodup :=
  (List.perm_insertionSort _ _).nodup_iff.mpr (List.nodup_dedup l)

theorem sortedDedup_sorted_lt (l : List Nat) :
    List.Sorted (· < ·) (sortedDedup l) :=
  (sortedDedup_sorted_le l).lt_of_le (sortedDedup_nodup l)

theorem mem_sortedDedup {a : Nat} {l : List Nat} : a ∈ sortedDedup l ↔ a ∈ l := by
  rw [sortedDedup, (List.perm_insertionSort _ _).mem_iff, List.mem_dedup]

theorem sortedDedup_perm {l l' : List Nat} (h : l.Perm l') :
    sortedDedup l = sortedDedup l' := by
  apply List.eq_of_perm_of_sorted ?_ (sortedDedup_sorted_le l) (sortedDedup_sorted_le l')
  exact (List.perm_insertionSort _ _).trans (h.dedup.trans (List.perm_insertionSort _ _).symm)

theorem sortedDedup_of_sorted {l : List Nat} (hs : List.Sorted (· ≤ ·) l)
    (hn : l.Nodup) : sortedDedup l = l := by
  rw [sortedDedup, List.dedup_eq_self.mpr hn, hs.insertionSort_eq]

theorem sortedDedup_idem (l : List Nat) :
    sortedDedup (sortedDedup l) = sortedDedup l :=
  sortedDedup_of_sorted (sortedDedup_sorted_le l) (sortedDedup_nodup l)

/-- Structural description of `groupIntoConsecutiveRanges`: each range is a
well-formed closed interval with `qty = stop - start + 1`, the ranges are
separated by gaps of at least one missing day, and the concatenation of all
their day lists is exactly the sorted deduplication of the input. -/
theorem groupIntoConsecutiveRanges_spec (l : List Nat) :
    (∀ r ∈ groupIntoConsecutiveRanges l,
        r.start ≤ r.stop ∧ r.qty = r.stop + 1 - r.start ∧
        r.days = List.range' r.start (r.stop + 1 - r.start)) ∧
    List.Pairwise (fun x y => x.stop + 1 < y.start) (groupIntoConsecutiveRanges l) ∧
    (groupIntoConsecutiveRanges l).flatMap (fun r => r.days) = sortedDedup l := by
  rcases hsd : sortedDedup l with _ | ⟨u0, rest⟩
  · simp [groupIntoConsecutiveRanges, hsd]
  · have hsorted : List.Sorted (· < ·) (u0 :: rest) := by
      rw [← hsd]; exact sortedDedup_sorted_lt l
    have hchain : List.Chain (· < ·) u0 rest :=
      List.chain_iff_pairwise.mpr hsorted
    have hspec := groupRangesLoop_spec rest u0 u0 [u0] hchain (by simp) (le_refl u0)
    obtain ⟨H1, H2, H3⟩ := hspec
    simp only [groupIntoConsecutiveRanges, hsd]
    exact ⟨fun r hr => ⟨(H1 r hr).2.1, (H1 r hr).2.2.1, (H1 r hr).2.2.2⟩, H2, by simpa using H3⟩

theorem ranges_qty_pos {l : List Nat} {r : DayRange}
    (hr : r ∈ groupIntoConsecutiveRanges l) : 0 < r.qty := by
  obtain ⟨h1, h2, _⟩ := (groupIntoConsecutiveRanges_spec l).1 r hr
  omega

theorem ranges_qty_sum (l : List Nat) :
    ((groupIntoConsecutiveRanges l).map (fun r => r.qty)).sum
      = (sortedDedup l).length := by
  obtain ⟨H1, _, H3⟩ := groupIntoConsecutiveRanges_spec l
  have hlen : ((groupIntoConsecutiveRanges l).flatMap (fun r => r.days)).length
      = ((groupIntoConsecutiveRanges l).map (fun r => r.qty)).sum := by
    rw [List.flatMap, List.length_flatten, List.map_map]
    congr 1
    apply List.map_congr_left
    intro r hr
    obtain ⟨h1, h2, h3⟩ := H1 r hr
    simp [h3, List.length_range', h2]
  rw [← hlen, H3]

/-- Day-level coverage: a day is inside one of the produced ranges iff it
occurs in the input. -/
theorem ranges_cover (l : List Nat) (d : Nat) :
    (∃ r ∈ groupIntoConsecutiveRanges l, r.start ≤ d ∧ d ≤ r.stop) ↔ d ∈ l := by
  obtain ⟨H1, _, H3⟩ := groupIntoConsecutiveRanges_spec l
  constructor
  · rintro ⟨r, hr, hd1, hd2⟩
    have : d ∈ (groupIntoConsecutiveRanges l).flatMap (fun r => r.days) := by
      rw [List.mem_flatMap]
      refine ⟨r, hr, ?_⟩
      obtain ⟨h1, _, h3⟩ := H1 r hr
      rw [h3, List.mem_range'_1]
      omega
    rw [H3, mem_sortedDedup] at this
    exact this
  · intro hd
    have : d ∈ (groupIntoConsecutiveRanges l).flatMap (fun r => r.days) := by
      rw [H3, mem_sortedDedup]; exact hd
    rw [List.mem_flatMap] at this
    obtain ⟨r, hr, hdr⟩ := this
    obtain ⟨h1, _, h3⟩ := H1 r hr
    rw [h3, List.mem_range'_1] at hdr
    exact ⟨r, hr, by omega⟩

/-! ## The per-range amount loop of `allocateProjectLineDays`

Lines 353–388 of `src/api/projects.ts`: for each range except the last,
`segAmount = round2(remainderAmount * seg.qty / remainderQty)`; the last
range gets `round2(remainderAmount - allocatedAmountSum)`.  The running
`allocatedAmountSum` is re-rounded after each addition, and
`allocatedQtySum` accumulates the day counts. -/
def allocSegments (remainderAmount remainderQty : ℚ) :
    List DayRange → ℚ → ℚ → List (DayRange × ℚ) × ℚ × ℚ
  | [], s, nq => ([], s, nq)
  | seg :: rest, s, nq =>
      let segAmount :=
        if rest.isEmpty then round2 (remainderAmount - s)
        else round2 (remainderAmount * (seg.qty : ℚ) / remainderQty)
      let s' := round2 (s + segAmount)
      let out := allocSegments remainderAmount remainderQty rest s' (nq + (seg.qty : ℚ))
      ((seg, segAmount) :: out.1, out.2)

/-! ### Properties of the amount loop -/

theorem allocSegments_map_fst (A Q : ℚ) :
    ∀ (rs : List DayRange) (s nq : ℚ), (allocSegments A Q rs s nq).1.map Prod.fst = rs := by
  intro rs
  induction rs with
  | nil => intro s nq; simp [allocSegments]
  | cons seg rest ih => intro s nq; simp [allocSegments, ih]

theorem allocSegments_qtySum (A Q : ℚ) :
    ∀ (rs : List DayRange) (s nq : ℚ),
      (allocSegments A Q rs s nq).2.2 = nq + (rs.map (fun r => (r.qty : ℚ))).sum := by
  intro rs
  induction rs with
  | nil => intro s nq; simp [allocSegments]
  | cons seg rest ih =>
    intro s nq
    simp only [allocSegments, List.map_cons, List.sum_cons]
    rw [ih]
    ring

theorem allocSegments_amounts_cent (A Q : ℚ) :
    ∀ (rs : List DayRange) (s nq : ℚ),
      ∀ x ∈ (allocSegments A Q rs s nq).1, IsCent x.2 := by
  intro rs
  induction rs with
  | nil => intro s nq x hx; simp [allocSegments] at hx
  | cons seg rest ih =>
    intro s nq x hx
    simp only [allocSegments, List.mem_cons] at hx
    rcases hx with rfl | hx
    · by_cases h : rest.isEmpty <;> simp [h, isCent_round2]
    · exact ih _ _ x hx

/-- The running `allocatedAmountSum` after the loop equals its initial
value plus the ordinary sum of all produced segment amounts (the repeated
re-rounding is exact, because every summand is a whole number of cents). -/
theorem allocSegments_amountSum (A Q : ℚ) :
    ∀ (rs : List DayRange) (s nq : ℚ), IsCent s →
      (allocSegments A Q rs s nq).2.1
        = s + ((allocSegments A Q rs s nq).1.map Prod.snd).sum := by
  intro rs
  induction rs with
  | nil => intro s nq _; simp [allocSegments]
  | cons seg rest ih =>
    intro s nq hs
    simp only [allocSegments, List.map_cons, List.sum_cons]
    have hseg : IsCent (if rest.isEmpty then round2 (A - s)
        else round2 (A * (seg.qty : ℚ) / Q)) := by
      by_cases h : rest.isEmpty <;> simp [h, isCent_round2]
    have hs' : round2 (s + _) = s + _ := round2_isCent (isCent_add hs hseg)
    rw [ih _ _ (by rw [hs']; exact isCent_add hs hseg), hs']
    ring

/-- The final `allocatedAmountSum` of one allocation is `round2` of the
**entire** remainder amount, independent of how many days were selected:
the last segment's `round2(remainderAmount - allocatedAmountSum)` absorbs
everything that is left of the remainder. -/
theorem allocSegments_total (A Q : ℚ) :
    ∀ (rs : List DayRange) (s nq : ℚ), rs ≠ [] → IsCent s →
      (allocSegments A Q rs s nq).2.1 = round2 A := by
  intro rs
  induction rs with
  | nil => intro s nq hne _; exact absurd rfl hne
  | cons seg rest ih =>
    intro s nq _ hs
    rcases rest with _ | ⟨r2, rest'⟩
    · simp only [allocSegments, List.isEmpty_nil, if_true]
      rw [round2_sub_isCent A hs, round2_isCent]
      · ring
      · exact isCent_add hs (isCent_sub (isCent_round2 A) hs)
    · simp only [allocSegments, List.isEmpty_cons, if_false]
      apply ih _ _ (by simp)
      exact isCent_round2 _

/-- **C1** (code_bug evaluation).  The spec claims the per-range amounts of
one allocation sum to `round2(totalAmount * allocatedQuantity /
totalQuantity)`.  In the code the last range's amount is
`round2(remainderAmount - allocatedAmountSum)` — the residual of the whole
remainder amount, not of the prorated allocated total — so with
`totalAmount = 500`, `totalQuantity = 5` and one range of 3 days the
produced amounts sum to `500`, while the claimed value is
`round2(500 * 3 / 5) = 300`. -/
theorem proration_not_exact_failing_input :
    ((allocSegments 500 5 [⟨10, 12, 3, [10, 11, 12]⟩] 0 0).1.map Prod.snd).sum = 500 ∧
    round2 (500 * 3 / 5) = 300 := by
  constructor
  · norm_num [allocSegments, round2_eq_intFloor]
  · norm_num [round2_eq_intFloor]

/-- **C6**: the compactor returns ranges in ascending start order, pairwise
disjoint (successive ranges are separated by strictly positive gaps), each
range's `qty` is `(end - start in days) + 1`, the ranges cover exactly the
deduplicated input set, the empty input yields the empty list, and the
output does not depend on the order of the input. -/
theorem compactor_correct (days : List Nat) :
    List.Pairwise (fun a b => a.stop < b.start) (groupIntoConsecutiveRanges days) ∧
    (∀ r ∈ groupIntoConsecutiveRanges days, r.qty = r.stop - r.start + 1) ∧
    (∀ d, (∃ r ∈ groupIntoConsecutiveRanges days, r.start ≤ d ∧ d ≤ r.stop) ↔ d ∈ days) ∧
    groupIntoConsecutiveRanges [] = [] ∧
    (∀ days', days.Perm days' → groupIntoConsecutiveRanges days' = groupIntoConsecutiveRanges days) := by
  obtain ⟨H1, H2, _⟩ := groupIntoConsecutiveRanges_spec days
  refine ⟨?_, ?_, fun d => ranges_cover days d, rfl, ?_⟩
  · exact H2.imp (fun h => by omega)
  · intro r hr
    obtain ⟨h1, h2, _⟩ := H1 r hr
    omega
  · intro days' hperm
    unfold groupIntoConsecutiveRanges
    rw [sortedDedup_perm hperm]

/-- Witness for C6: the order-independence conjunct applied to a concrete
permutation. -/
theorem compactor_correct_witness :
    ([3, 1, 2, 5] : List Nat).Perm [5, 2, 1, 3] ∧
    groupIntoConsecutiveRanges [5, 2, 1, 3] = groupIntoConsecutiveRanges [3, 1, 2, 5] :=
  ⟨by decide, (compactor_correct [3, 1, 2, 5]).2.2.2.2 [5, 2, 1, 3] (by decide)⟩

/-! ## Data model

A `LineRow` is one `project_lines` record (fields as selected by the
engine; `sold_quantity`, a legacy duplicate of `sold_total`, is omitted).
A `Booking` is one `consultant_bookings` record.  `GroupState` is the
slice of the store the engine touches, together with the id counters of
the store and the joined display names (`projects`/`clients`/`articles`
rows, constant for one group) used to derive booking titles. -/

structure LineRow where
  id : Nat
  groupId : String
  soldTotal : ℚ
  lineQuantity : ℚ
  amount : ℚ
  consultantId : Option String
  plannedStart : Option Nat
  plannedEnd : Option Nat
  plannedQuantity : ℚ
  realizedQuantity : ℚ
  bookingId : Option Nat
deriving Repr, DecidableEq

structure Booking where
  id : Nat
  consultantId : Option String
  kind : String
  title : String
  notes : String
  startDate : Option Nat
  endDate : Option Nat
deriving Repr, DecidableEq

structure GroupState where
  rows : List LineRow
  bookings : List Booking
  nextRowId : Nat
  nextBookingId : Nat
  clientNumber : String
  clientName : String
  projectName : String
  articleName : String
deriving Repr, DecidableEq

/-- JS falsiness of a nullable string (`null` and `""` are falsy). -/
def isFalsyStr : Option String → Bool
  | none => true
  | some s => s == ""

/-- JS falsiness of a nullable day (valid ISO day strings are never
falsy, only `null` is). -/
def isFalsyDay : Option Nat → Bool
  | none => true
  | some _ => false

/-- The JS-side remainder test used by the engine:
`!consultant_id && !planned_start_date && !planned_end_date &&
Number(planned_quantity ?? 0) === 0`. -/
def isRemainderJs (r : LineRow) : Bool :=
  isFalsyStr r.consultantId && isFalsyDay r.plannedStart && isFalsyDay r.plannedEnd
    && (r.plannedQuantity == 0)

/-- The SQL-side remainder filter used by `deleteProjectLine`:
`consultant_id IS NULL AND planned_start_date IS NULL AND
planned_end_date IS NULL AND planned_quantity = 0`.  This is also the
spec's remainder predicate. -/
def isRemainderSql (r : LineRow) : Bool :=
  (r.consultantId == none) && (r.plannedStart == none) && (r.plannedEnd == none)
    && (r.plannedQuantity == 0)

/-- `.select(...).eq("id", i).single()`: errors unless exactly one row
matches. -/
def singleRow (rows : List LineRow) (i : Nat) : Option LineRow :=
  match rows.filter (fun r => r.id == i) with
  | [r] => some r
  | _ => none

/-- `.maybeSingle()`: `none` (error) if more than one row matches,
otherwise the at-most-one matching row. -/
def maybeSingle (l : List LineRow) : Option (Option LineRow) :=
  match l with
  | [] => some none
  | [r] => some (some r)
  | _ => none

/-- `.update(patch).eq("id", i)`. -/
def updateRowById (rows : List LineRow) (i : Nat) (f : LineRow → LineRow) : List LineRow :=
  rows.map (fun r => if r.id = i then f r else r)

def qtySum (rows : List LineRow) : ℚ := (rows.map (fun r => r.lineQuantity)).sum

def amtSum (rows : List LineRow) : ℚ := (rows.map (fun r => r.amount)).sum

/-! ## `syncBookingForLine` -/

/-- `` `${clientNumber} • ${clientName} — ${projectName} — ${articleName}`.trim() ``. -/
def bookingTitle (s : GroupState) : String :=
  (s.clientNumber ++ " • " ++ s.clientName ++ " — " ++ s.projectName
    ++ " — " ++ s.articleName).trim

/-- `` `Ligne projet: ${lineId}\nQté planifiée: ${plannedQty}` ``. -/
def bookingNotes (lineId : Nat) (plannedQty : ℚ) : String :=
  "Ligne projet: " ++ toString lineId ++ "\nQté planifiée: " ++ toString plannedQty

/-- `hasAll` from `syncBookingForLine`:
`!!consultantId && !!start && !!end && plannedQty > 0`. -/
def hasAllBooking (r : LineRow) : Prop :=
  isFalsyStr r.consultantId = false ∧ isFalsyDay r.plannedStart = false ∧
  isFalsyDay r.plannedEnd = false ∧ 0 < r.plannedQuantity

instance (r : LineRow) : Decidable (hasAllBooking r) := by
  unfold hasAllBooking; infer_instance

/-- `syncBookingForLine` from `src/api/projects.ts` (the source tests
`if (!hasAll)` first and returns; here the branches are swapped with the
condition made positive). -/
def syncBookingForLine (s : GroupState) (lineId : Nat) : Option GroupState := do
  let row ← singleRow s.rows lineId
  if ¬ hasAllBooking row then
    match row.bookingId with
    | some b =>
        some { s with
          bookings := s.bookings.filter (fun bk => !(bk.id == b))
          rows := updateRowById s.rows lineId (fun r => { r with bookingId := none }) }
    | none => some s
  else
    let title := bookingTitle s
    let bnotes := bookingNotes lineId row.plannedQuantity
    match row.bookingId with
    | some b =>
        some { s with
          bookings := s.bookings.map (fun bk =>
            if bk.id = b then
              { bk with
                consultantId := row.consultantId
                kind := "booking"
                title := title
                notes := bnotes
                startDate := row.plannedStart
                endDate := row.plannedEnd }
            else bk) }
    | none =>
        let nb : Booking :=
          { id := s.nextBookingId
            consultantId := row.consultantId
            kind := "booking"
            title := title
            notes := bnotes
            startDate := row.plannedStart
            endDate := row.plannedEnd }
        some { s with
          bookings := s.bookings ++ [nb]
          nextBookingId := s.nextBookingId + 1
          rows := updateRowById s.rows lineId
            (fun r => { r with bookingId := some s.nextBookingId }) }

/-! ## `allocateProjectLineDays` -/

/-- The pure front half of `allocateProjectLineDays`: validations and the
per-range computation, before any write is issued. -/
structure AllocPrep where
  base : LineRow
  segs : List (DayRange × ℚ)
  allocatedAmountSum : ℚ
  allocatedQtySum : ℚ
deriving Repr, DecidableEq

def allocatePrep (s : GroupState) (lineId : Nat) (days : List Nat) : Option AllocPrep := do
  let selectedDays := sortedDedup days
  if selectedDays.isEmpty then none
  else do
    let base ← singleRow s.rows lineId
    if isRemainderJs base = false then none
    else if ¬ (0 < base.soldTotal) then none
    else if ¬ (0 < base.lineQuantity) then none
    else if base.lineQuantity < (selectedDays.length : ℚ) then none
    else
      let ranges := groupIntoConsecutiveRanges selectedDays
      if ranges.isEmpty then none
      else
        let out := allocSegments base.amount base.lineQuantity ranges 0 0
        some ⟨base, out.1, out.2.1, out.2.2⟩

/-- The rows inserted by step 3 of the source (ids assigned by the store,
modelled as consecutive fresh ids). -/
def buildAllocRows (base : LineRow) (consultantId : String) :
    Nat → List (DayRange × ℚ) → List LineRow
  | _, [] => []
  | nid, sa :: rest =>
      { id := nid
        groupId := base.groupId
        soldTotal := base.soldTotal
        lineQuantity := (sa.1.qty : ℚ)
        amount := sa.2
        consultantId := some consultantId
        plannedStart := some sa.1.start
        plannedEnd := some sa.1.stop
        plannedQuantity := (sa.1.qty : ℚ)
        realizedQuantity := 0
        bookingId := none } :: buildAllocRows base consultantId (nid + 1) rest

def insertAllocRows (s : GroupState) (p : AllocPrep) (consultantId : String) :
    GroupState × List Nat :=
  let newRows := buildAllocRows p.base consultantId s.nextRowId p.segs
  ({ s with
      rows := s.rows ++ newRows
      nextRowId := s.nextRowId + newRows.length },
   newRows.map (fun r => r.id))

/-- Step 5 of the source: one `syncBookingForLine` per created row, in
order; the first failure aborts. -/
def foldSyncs : GroupState → List Nat → Option GroupState
  | s, [] => some s
  | s, i :: rest => do
      let s' ← syncBookingForLine s i
      foldSyncs s' rest

/-- `allocateProjectLineDays` from `src/api/projects.ts`. -/
def allocateProjectLineDays (s : GroupState) (lineId : Nat) (consultantId : String)
    (days : List Nat) : Option GroupState := do
  let p ← allocatePrep s lineId days
  let inserted := insertAllocRows s p consultantId
  let newRemainderQty := round2 (p.base.lineQuantity - p.allocatedQtySum)
  let newRemainderAmount := round2 (p.base.amount - p.allocatedAmountSum)
  let s2 := { inserted.1 with rows := updateRowById inserted.1.rows p.base.id (fun r =>
      { r with lineQuantity := newRemainderQty, amount := newRemainderAmount }) }
  foldSyncs s2 inserted.2

/-- The observable state of `allocateProjectLineDays` when the storage
call updating the remainder (step 4, error `e2`) fails after the insert of
step 3 succeeded: the function throws, leaving the inserted allocation
rows in place and the remainder untouched. -/
def allocateInsertOnly (s : GroupState) (lineId : Nat) (consultantId : String)
    (days : List Nat) : Option GroupState := do
  let p ← allocatePrep s lineId days
  some (insertAllocRows s p consultantId).1

/-! ## `reportProjectLineRemainder` -/

/-- `reportProjectLineRemainder` from `src/api/projects.ts`. -/
def reportProjectLineRemainder (s : GroupState) (lineId : Nat) : Option GroupState := do
  let line ← singleRow s.rows lineId
  if isRemainderJs line then some s
  else if ¬ (0 < line.lineQuantity) then none
  else if ¬ (0 < line.plannedQuantity ∧ line.plannedQuantity < line.lineQuantity) then none
  else
    let remainderQty := round2 (line.lineQuantity - line.plannedQuantity)
    let amountPlanned := round2 (line.amount * line.plannedQuantity / line.lineQuantity)
    let amountRemainder := round2 (line.amount - amountPlanned)
    let rows1 := updateRowById s.rows lineId (fun r =>
      { r with lineQuantity := line.plannedQuantity, amount := amountPlanned })
    let newRow : LineRow :=
      { id := s.nextRowId
        groupId := line.groupId
        soldTotal := line.soldTotal
        lineQuantity := remainderQty
        amount := amountRemainder
        consultantId := none
        plannedStart := none
        plannedEnd := none
        plannedQuantity := 0
        realizedQuantity := 0
        bookingId := none }
    let s1 : GroupState :=
      { s with
        rows := rows1 ++ [newRow]
        nextRowId := s.nextRowId + 1 }
    syncBookingForLine s1 lineId

/-! ## `deleteProjectLine` -/

/-- `deleteProjectLine` from `src/api/projects.ts`. -/
def deleteProjectLine (s : GroupState) (i : Nat) : Option GroupState := do
  let line ← singleRow s.rows i
  -- delete the row's booking if present (done before the branch)
  let bookings1 := match line.bookingId with
    | some b => s.bookings.filter (fun bk => !(bk.id == b))
    | none => s.bookings
  if isRemainderJs line then
    -- deleting the remainder removes the whole group and all its bookings
    let groupLines := s.rows.filter (fun r => r.groupId == line.groupId)
    let bookingIds := groupLines.filterMap (fun r => r.bookingId)
    some { s with
      rows := s.rows.filter (fun r => !(r.groupId == line.groupId))
      bookings := bookings1.filter (fun bk => !(bookingIds.contains bk.id)) }
  else
    -- allocation row: reinject into the group's remainder
    let rem? ← maybeSingle (s.rows.filter (fun r =>
      (r.groupId == line.groupId) && isRemainderSql r))
    match rem? with
    | none => none   -- "Reliquat introuvable pour ce groupe."
    | some rem =>
        let newQty := round2 (rem.lineQuantity + line.lineQuantity)
        let newAmount := round2 (rem.amount + line.amount)
        let rows1 := updateRowById s.rows rem.id (fun r =>
          { r with lineQuantity := newQty, amount := newAmount })
        some { s with
          rows := rows1.filter (fun r => !(r.id == i))
          bookings := bookings1 }

/-! ## Group lifecycle -/

/-- The row inserted by `createProjectLine`: the initial remainder
(`line_quantity = sold_total`, full amount, no planning fields).  The
subsequent `syncBookingForLine` call is a no-op on this row. -/
def initialGroup (g0 : String) (rowId : Nat) (soldTotal amount : ℚ)
    (clientNumber clientName projectName articleName : String) : GroupState :=
  { rows := [{ id := rowId
               groupId := g0
               soldTotal := soldTotal
               lineQuantity := soldTotal
               amount := amount
               consultantId := none
               plannedStart := none
               plannedEnd := none
               plannedQuantity := 0
               realizedQuantity := 0
               bookingId := none }]
    bookings := []
    nextRowId := rowId + 1
    nextBookingId := 0
    clientNumber := clientNumber
    clientName := clientName
    projectName := projectName
    articleName := articleName }

/-- One successful engine operation. -/
inductive EngineStep : GroupState → GroupState → Prop
  | alloc {s s' : GroupState} (lineId : Nat) (consultantId : String) (days : List Nat)
      (h : allocateProjectLineDays s lineId consultantId days = some s') : EngineStep s s'
  | deleteLine {s s' : GroupState} (i : Nat)
      (h : deleteProjectLine s i = some s') : EngineStep s s'
  | report {s s' : GroupState} (i : Nat)
      (h : reportProjectLineRemainder s i = some s') : EngineStep s s'

/-- States reachable from `init` by sequences of successful operations. -/
inductive EngineReachable (init : GroupState) : GroupState → Prop
  | refl : EngineReachable init init
  | tail {s s' : GroupState} :
      EngineReachable init s → EngineStep s s' → EngineReachable init s'

/-! ## Scenario A: `soldTotal = 5`, remainder `500.00`, allocate 3
consecutive days -/

/-- The spec's Scenario A starting group. -/
def scenarioA : GroupState := initialGroup "g1" 1 5 500 "C001" "Acme" "Proj" "Art"

/-- The remainder row after the Scenario A allocation, as the code leaves
it: `lineQuantity = 2` but `amount = 0`. -/
def scenarioA_row1 : LineRow :=
  { id := 1
    groupId := "g1"
    soldTotal := 5
    lineQuantity := 2
    amount := 0
    consultantId := none
    plannedStart := none
    plannedEnd := none
    plannedQuantity := 0
    realizedQuantity := 0
    bookingId := none }

/-- The allocation row the code creates in Scenario A: quantities as the
spec says, but `amount = 500` (the entire remainder amount). -/
def scenarioA_row2 : LineRow :=
  { id := 2
    groupId := "g1"
    soldTotal := 5
    lineQuantity := 3
    amount := 500
    consultantId := some "R1"
    plannedStart := some 10
    plannedEnd := some 12
    plannedQuantity := 3
    realizedQuantity := 0
    bookingId := some 0 }

def scenarioA_booking : Booking :=
  { id := 0
    consultantId := some "R1"
    kind := "booking"
    title := "C001 • Acme — Proj — Art".trim
    notes := bookingNotes 2 3
    startDate := some 10
    endDate := some 12 }

/-- The full state after the Scenario A allocation. -/
def scenarioA_after : GroupState :=
  { rows := [scenarioA_row1, scenarioA_row2]
    bookings := [scenarioA_booking]
    nextRowId := 3
    nextBookingId := 1
    clientNumber := "C001"
    clientName := "Acme"
    projectName := "Proj"
    articleName := "Art" }

/-- Evaluation of the whole `allocateProjectLineDays` call of Scenario A
(days 10, 11, 12 are three consecutive days). -/
theorem allocate_scenarioA_eval :
    allocateProjectLineDays scenarioA 1 "R1" [10, 11, 12] = some scenarioA_after := by
  have h1 : sortedDedup [10, 11, 12] = [10, 11, 12] := by decide
  have h2 : groupIntoConsecutiveRanges [10, 11, 12] = [⟨10, 12, 3, [10, 11, 12]⟩] := by decide
  have hseg : allocSegments 500 5 [⟨10, 12, 3, [10, 11, 12]⟩] 0 0
      = ([(⟨10, 12, 3, [10, 11, 12]⟩, 500)], 500, 3) := by
    norm_num [allocSegments, round2_eq_intFloor]
  have hq : round2 (5 - 3) = 2 := by norm_num [round2_eq_intFloor]
  have ha : round2 (500 - 500) = 0 := by norm_num [round2_eq_intFloor]
  simp [allocateProjectLineDays, allocatePrep, scenarioA, initialGroup, h1, h2, hseg, hq, ha,
    singleRow, isRemainderJs, isFalsyStr, isFalsyDay, insertAllocRows, buildAllocRows,
    updateRowById, foldSyncs, syncBookingForLine, hasAllBooking, bookingTitle, bookingNotes,
    scenarioA_after, scenarioA_row1, scenarioA_row2, scenarioA_booking,
    show (0:ℚ) < 5 by norm_num, show ¬ ((5:ℚ) < 3) by norm_num, show (0:ℚ) < 3 by norm_num,
    show ¬ ((5:ℚ) ≤ 0) by norm_num, show ¬ ((3:ℚ) ≤ 0) by norm_num,
    show round2 0 = 0 from round2_isCent isCent_zero]

/-- **C2** (code_bug evaluation).  Starting from Scenario A (`soldTotal =
5`, remainder `lineQuantity = 5, amount = 500.00`), allocating 3
consecutive days creates exactly one allocation row with `lineQuantity =
3` and `plannedQuantity = 3` as the claim says — but its `amount` is
`500.00` (not `300.00`), and the remainder is left with `lineQuantity =
2` and `amount = 0.00` (not `200.00`). -/
theorem allocate_scenarioA_amounts :
    allocateProjectLineDays scenarioA 1 "R1" [10, 11, 12] = some scenarioA_after ∧
    scenarioA_after.rows = [scenarioA_row1, scenarioA_row2] ∧
    scenarioA_row2.lineQuantity = 3 ∧ scenarioA_row2.plannedQuantity = 3 ∧
    scenarioA_row2.amount = 500 ∧ (500 : ℚ) ≠ 300 ∧
    scenarioA_row1.lineQuantity = 2 ∧ scenarioA_row1.amount = 0 ∧ (0 : ℚ) ≠ 200 :=
  ⟨allocate_scenarioA_eval, rfl, rfl, rfl, rfl, by norm_num, rfl, rfl, by norm_num⟩

/-- The observable state of Scenario A when the remainder-update storage
call fails after the insert succeeded: both new rows inserted, remainder
untouched. -/
def scenarioA_insertOnly : GroupState :=
  { rows := [{ id := 1
               groupId := "g1"
               soldTotal := 5
               lineQuantity := 5
               amount := 500
               consultantId := none
               plannedStart := none
               plannedEnd := none
               plannedQuantity := 0
               realizedQuantity := 0
               bookingId := none },
             { id := 2
               groupId := "g1"
               soldTotal := 5
               lineQuantity := 3
               amount := 500
               consultantId := some "R1"
               plannedStart := some 10
               plannedEnd := some 12
               plannedQuantity := 3
               realizedQuantity := 0
               bookingId := none }]
    bookings := []
    nextRowId := 3
    nextBookingId := 0
    clientNumber := "C001"
    clientName := "Acme"
    projectName := "Proj"
    articleName := "Art" }

/-- **C5** (code_bug evaluation).  The source issues the insert of the
allocation rows and the update of the remainder as two separate storage
calls with no transaction; if the update call fails after the insert
succeeded, the thrown error leaves the inserted rows in place: the
observable state differs from the starting state, its `lineQuantity` sum
is `8` (not the group's `soldTotal = 5`), so the mutation is partially
applied — contradicting the claimed atomicity. -/
theorem allocate_not_atomic_on_update_failure :
    allocateInsertOnly scenarioA 1 "R1" [10, 11, 12] = some scenarioA_insertOnly ∧
    scenarioA_insertOnly ≠ scenarioA ∧
    qtySum scenarioA_insertOnly.rows = 8 ∧
    qtySum scenarioA.rows = 5 := by
  refine ⟨?_, ?_, ?_, ?_⟩
  · have h1 : sortedDedup [10, 11, 12] = [10, 11, 12] := by decide
    have h2 : groupIntoConsecutiveRanges [10, 11, 12] = [⟨10, 12, 3, [10, 11, 12]⟩] := by decide
    have hseg : allocSegments 500 5 [⟨10, 12, 3, [10, 11, 12]⟩] 0 0
        = ([(⟨10, 12, 3, [10, 11, 12]⟩, 500)], 500, 3) := by
      norm_num [allocSegments, round2_eq_intFloor]
    simp [allocateInsertOnly, allocatePrep, scenarioA, initialGroup, h1, h2, hseg,
      singleRow, isRemainderJs, isFalsyStr, isFalsyDay, insertAllocRows, buildAllocRows,
      scenarioA_insertOnly,
      show (0:ℚ) < 5 by norm_num, show ¬ ((5:ℚ) < 3) by norm_num,
      show ¬ ((5:ℚ) ≤ 0) by norm_num]
  · intro h
    have := congrArg (fun t => t.rows.length) h
    simp [scenarioA_insertOnly, scenarioA, initialGroup] at this
  · norm_num [qtySum, scenarioA_insertOnly]
  · norm_num [qtySum, scenarioA, initialGroup]

/-! ## C8: `reportProjectLineRemainder` rejection behaviour -/

/-- **C8** (counterexample).  The claim says `reportRemainder` rejects —
signals an error — when the target row is already a remainder.  The code
instead does `if (isAlreadyRemainder) return;`: it resolves successfully
without touching anything.  On Scenario A's starting state, whose only
row is the remainder, the call succeeds and returns the state unchanged. -/
theorem reportRemainder_succeeds_on_remainder :
    reportProjectLineRemainder scenarioA 1 = some scenarioA ∧
    reportProjectLineRemainder scenarioA 1 ≠ none := by
  have h : reportProjectLineRemainder scenarioA 1 = some scenarioA := by
    simp [reportProjectLineRemainder, singleRow, scenarioA, initialGroup,
      isRemainderJs, isFalsyStr, isFalsyDay]
  exact ⟨h, by simp [h]⟩

/-- **C8** (amended).  `reportRemainder(rowId)` returns successfully
without mutating or inserting any row when the target row is already a
remainder (a silent no-op, not an error), and rejects — with no row
mutated and no row inserted — when the row is not a remainder and its
`plannedQuantity` is not strictly between `0` and its `lineQuantity`. -/
theorem reportRemainder_amended (s : GroupState) (i : Nat) (r : LineRow)
    (hs : singleRow s.rows i = some r) :
    (isRemainderJs r = true → reportProjectLineRemainder s i = some s) ∧
    (isRemainderJs r = false →
      ¬ (0 < r.plannedQuantity ∧ r.plannedQuantity < r.lineQuantity) →
      reportProjectLineRemainder s i = none) := by
  constructor
  · intro hjs
    simp [reportProjectLineRemainder, hs, hjs]
  · intro hjs hnot
    by_cases hq : 0 < r.lineQuantity
    · simp [reportProjectLineRemainder, hs, hjs, hq, hnot]
    · simp [reportProjectLineRemainder, hs, hjs, hq]

/-- Witness for the amended C8: the allocation row of Scenario A has
`plannedQuantity = lineQuantity = 3`, so splitting it is rejected. -/
theorem reportRemainder_amended_witness :
    reportProjectLineRemainder scenarioA_after 2 = none := by
  refine (reportRemainder_amended scenarioA_after 2 scenarioA_row2 ?_).2 ?_ ?_
  · simp [singleRow, scenarioA_after, scenarioA_row1, scenarioA_row2]
  · norm_num [isRemainderJs, isFalsyStr, isFalsyDay, scenarioA_row2]
  · norm_num [scenarioA_row2]

/-! ## C10: the `fetchProjectLines` row mapper -/

/-- One raw row as returned by the `fetchProjectLines` select, including
the joined `article`/`consultant` display fields (a missing join is
`none`). -/
structure RawProjectLine where
  id : String
  project_id : String
  article_id : String
  amount : Option ℚ
  consultant_id : Option String
  planned_start_date : Option String
  planned_end_date : Option String
  planned_quantity : Option ℚ
  realized_quantity : Option ℚ
  booking_id : Option String
  group_id : Option String
  sold_total : Option ℚ
  line_quantity : Option ℚ
  article_name : Option String
  article_service : Option String
  article_competences : List (Option String)
  consultant_name : Option String
deriving Repr, DecidableEq

/-- The mapped `ProjectLine` object produced by `fetchProjectLines`. -/
structure ProjectLine where
  id : String
  projectId : String
  articleId : String
  articleName : String
  articleService : String
  articleCompetencesRequired : List String
  soldQuantity : ℚ
  lineQuantity : ℚ
  amount : ℚ
  consultantId : Option String
  consultantName : Option String
  plannedStartDate : Option String
  plannedEndDate : Option String
  plannedQuantity : ℚ
  realizedQuantity : ℚ
  bookingId : Option String
  groupId : String
deriving Repr, DecidableEq

/-- The `.map` callback of `fetchProjectLines` (`src/api/projects.ts`,
lines 208–236): `??`-defaults for every nullable column, and
`groupId: r.group_id ?? r.id`. -/
def mapProjectLine (r : RawProjectLine) : ProjectLine :=
  { id := r.id
    projectId := r.project_id
    articleId := r.article_id
    articleName := r.article_name.getD ""
    articleService := r.article_service.getD ""
    articleCompetencesRequired :=
      (r.article_competences.filterMap id).filter (fun s => !(s == ""))
    soldQuantity := r.sold_total.getD 0
    lineQuantity := r.line_quantity.getD 0
    amount := r.amount.getD 0
    consultantId := r.consultant_id
    consultantName := r.consultant_name
    plannedStartDate := r.planned_start_date
    plannedEndDate := r.planned_end_date
    plannedQuantity := r.planned_quantity.getD 0
    realizedQuantity := r.realized_quantity.getD 0
    bookingId := r.booking_id
    groupId := r.group_id.getD r.id }

/-- **C10**: every mapped line carries a (non-null, `String`-typed)
`groupId`: the stored `group_id` when present, and the row's own `id`
otherwise, so legacy rows without a `group_id` can still be grouped. -/
theorem fetch_groupId_fallback (r : RawProjectLine) :
    (∀ g, r.group_id = some g → (mapProjectLine r).groupId = g) ∧
    (r.group_id = none → (mapProjectLine r).groupId = r.id) := by
  constructor
  · intro g hg
    simp [mapProjectLine, hg]
  · intro hg
    simp [mapProjectLine, hg]

/-- A legacy raw row created before `group_id` existed. -/
def exRawLegacy : RawProjectLine :=
  { id := "L7"
    project_id := "P1"
    article_id := "A1"
    amount := some 500
    consultant_id := none
    planned_start_date := none
    planned_end_date := none
    planned_quantity := none
    realized_quantity := none
    booking_id := none
    group_id := none
    sold_total := some 5
    line_quantity := some 5
    article_name := none
    article_service := none
    article_competences := []
    consultant_name := none }

theorem fetch_groupId_fallback_witness :
    (mapProjectLine exRawLegacy).groupId = "L7" :=
  (fetch_groupId_fallback exRawLegacy).2 rfl

/-! ## C7: `deleteProjectLine` on an allocation row -/

theorem singleRow_filter {rows : List LineRow} {i : Nat} {r : LineRow}
    (h : singleRow rows i = some r) :
    rows.filter (fun x => x.id == i) = [r] := by
  unfold singleRow at h
  rcases hf : rows.filter (fun x => x.id == i) with _ | ⟨a, _ | ⟨b, t⟩⟩
  · rw [hf] at h; exact absurd h (by simp)
  · rw [hf] at h
    simp only [Option.some.injEq] at h
    rw [h] at hf
    exact hf
  · rw [hf] at h; exact absurd h (by simp)

theorem singleRow_props {rows : List LineRow} {i : Nat} {r : LineRow}
    (h : singleRow rows i = some r) : r ∈ rows ∧ r.id = i := by
  have hf := singleRow_filter h
  have hr : r ∈ rows.filter (fun x => x.id == i) := by rw [hf]; simp
  rw [List.mem_filter] at hr
  exact ⟨hr.1, by simpa using hr.2⟩

/-- A row matching the SQL remainder filter also passes the JS remainder
test. -/
theorem isRemainderJs_of_sql {r : LineRow} (h : isRemainderSql r = true) :
    isRemainderJs r = true := by
  simp only [isRemainderSql, Bool.and_eq_true, beq_iff_eq] at h
  obtain ⟨⟨⟨h1, h2⟩, h3⟩, h4⟩ := h
  simp [isRemainderJs, h1, h2, h3, h4, isFalsyStr, isFalsyDay]

/-- **C7**: `deleteLine` on a row that is not the remainder (an allocation
row) deletes its booking (if any), adds its `lineQuantity`/`amount` back —
through `round2` — onto the group's remainder found by the derived-role
filter, and removes the row itself (every surviving row has a different
id, and exactly one row disappears); when the filter finds no remainder in
the group, the operation fails with an error instead of silently
succeeding. -/
theorem deleteLine_allocation_behavior (s : GroupState) (i : Nat) (r : LineRow)
    (hs : singleRow s.rows i = some r)
    (hnr : isRemainderJs r = false) :
    (s.rows.filter (fun x => (x.groupId == r.groupId) && isRemainderSql x) = [] →
      deleteProjectLine s i = none) ∧
    (∀ rem, s.rows.filter (fun x => (x.groupId == r.groupId) && isRemainderSql x) = [rem] →
      ∃ s', deleteProjectLine s i = some s' ∧
        (∀ x ∈ s'.rows, x.id ≠ i) ∧
        (∀ b, r.bookingId = some b → ∀ bk ∈ s'.bookings, bk.id ≠ b) ∧
        (∃ rem' ∈ s'.rows, rem'.id = rem.id ∧
          rem'.lineQuantity = round2 (rem.lineQuantity + r.lineQuantity) ∧
          rem'.amount = round2 (rem.amount + r.amount)) ∧
        s'.rows.length + 1 = s.rows.length) := by
  constructor
  · intro hfilter
    simp [deleteProjectLine, hs, hnr, hfilter, maybeSingle]
  · intro rem hfilter
    have hdel : deleteProjectLine s i = some
        { s with
          rows := (updateRowById s.rows rem.id (fun x =>
            { x with
              lineQuantity := round2 (rem.lineQuantity + r.lineQuantity)
              amount := round2 (rem.amount + r.amount) })).filter (fun x => !(x.id == i))
          bookings := match r.bookingId with
            | some b => s.bookings.filter (fun bk => !(bk.id == b))
            | none => s.bookings } := by
      simp [deleteProjectLine, hs, hnr, hfilter, maybeSingle]
    refine ⟨_, hdel, ?_, ?_, ?_, ?_⟩
    · intro x hx
      rw [List.mem_filter] at hx
      simpa using hx.2
    · intro b hb bk hbk
      rw [hb] at hbk
      simp only at hbk
      rw [List.mem_filter] at hbk
      simpa using hbk.2
    · -- the updated remainder survives
      have hremmem : rem ∈ s.rows ∧ ((rem.groupId == r.groupId) && isRemainderSql rem) = true := by
        have : rem ∈ s.rows.filter (fun x => (x.groupId == r.groupId) && isRemainderSql x) := by
          rw [hfilter]; simp
        exact List.mem_filter.mp this
      have hsql : isRemainderSql rem = true := by
        have := hremmem.2
        simp only [Bool.and_eq_true] at this
        exact this.2
      have hremid : ¬ rem.id = i := by
        intro hid
        have : rem ∈ s.rows.filter (fun x => x.id == i) := by
          rw [List.mem_filter]
          exact ⟨hremmem.1, by simpa using hid⟩
        rw [singleRow_filter hs] at this
        simp only [List.mem_singleton] at this
        rw [this] at hsql
        rw [isRemainderJs_of_sql hsql] at hnr
        exact absurd hnr (by simp)
      refine ⟨{ rem with
          lineQuantity := round2 (rem.lineQuantity + r.lineQuantity)
          amount := round2 (rem.amount + r.amount) }, ?_, rfl, rfl, rfl⟩
      rw [List.mem_filter]
      refine ⟨?_, by simpa using hremid⟩
      rw [updateRowById]
      have hbeta : ({ rem with
          lineQuantity := round2 (rem.lineQuantity + r.lineQuantity)
          amount := round2 (rem.amount + r.amount) } : LineRow)
        = (fun x => if x.id = rem.id then
            { x with
              lineQuantity := round2 (rem.lineQuantity + r.lineQuantity)
              amount := round2 (rem.amount + r.amount) }
          else x) rem := by simp
      rw [hbeta]
      exact List.mem_map_of_mem _ hremmem.1
    · -- exactly one row disappears
      obtain ⟨l₁, l₂, hdecomp, hl₁, hpr, hl₂⟩ :=
        List.filter_eq_cons_iff.mp (singleRow_filter hs)
      rw [List.filter_eq_nil_iff] at hl₂
      have hfm : ∀ (g : LineRow → LineRow), (∀ x, (g x).id = x.id) →
          (List.map g s.rows).filter (fun x => !(x.id == i))
            = List.map g (s.rows.filter (fun x => !(x.id == i))) := by
        intro g hg
        rw [List.filter_map]
        congr 1
        apply List.filter_congr
        intro x _
        simp [hg]
      rw [updateRowById, hfm _ (fun x => by split <;> rfl)]
      rw [List.length_map, hdecomp, List.filter_append, List.filter_cons]
      have hri : (r.id == i) = true := by
        simpa using (singleRow_props hs).2
      simp only [hri, Bool.not_true, if_neg]
      rw [List.filter_eq_self.mpr, List.filter_eq_self.mpr]
      · simp [hdecomp]
        omega
      · intro x hx
        simpa using hl₂ x hx
      · intro x hx
        simpa using hl₁ x hx

/-- Witness for C7 (the spec's Scenario D): deleting the Scenario A
allocation row deletes its booking and puts its quantity and amount back
on the remainder. -/
theorem deleteLine_allocation_behavior_witness :
    ∃ s', deleteProjectLine scenarioA_after 2 = some s' ∧
      (∀ x ∈ s'.rows, x.id ≠ 2) ∧
      (∀ b, scenarioA_row2.bookingId = some b → ∀ bk ∈ s'.bookings, bk.id ≠ b) ∧
      (∃ rem' ∈ s'.rows, rem'.id = scenarioA_row1.id ∧
        rem'.lineQuantity = round2 (scenarioA_row1.lineQuantity + scenarioA_row2.lineQuantity) ∧
        rem'.amount = round2 (scenarioA_row1.amount + scenarioA_row2.amount)) ∧
      s'.rows.length + 1 = scenarioA_after.rows.length := by
  refine (deleteLine_allocation_behavior scenarioA_after 2 scenarioA_row2 ?_ ?_).2
    scenarioA_row1 ?_
  · simp [singleRow, scenarioA_after, scenarioA_row1, scenarioA_row2]
  · norm_num [isRemainderJs, isFalsyStr, isFalsyDay, scenarioA_row2]
  · simp [scenarioA_after, scenarioA_row1, scenarioA_row2, isRemainderSql]

/-! ## C9: idempotence of `syncBookingForLine` -/

theorem singleRow_update {rows : List LineRow} {i : Nat} {r : LineRow}
    (f : LineRow → LineRow) (hf : ∀ x, (f x).id = x.id)
    (h : singleRow rows i = some r) :
    singleRow (updateRowById rows i f) i = some (f r) := by
  have hfil := singleRow_filter h
  have hid := (singleRow_props h).2
  have hkey : (updateRowById rows i f).filter (fun x => x.id == i) = [f r] := by
    rw [updateRowById, List.filter_map]
    have hcong : rows.filter ((fun x => x.id == i) ∘ fun x => if x.id = i then f x else x)
        = rows.filter (fun x => x.id == i) := by
      apply List.filter_congr
      intro x _
      by_cases hx : x.id = i <;> simp [hx, hf]
    rw [hcong, hfil]
    simp [hid]
  unfold singleRow
  rw [hkey]

/-- **C9**: `syncBookingForLine` is idempotent.  If one call succeeds and
turns `s` into `s'` (and the store's booking ids are fresh, i.e. below the
id counter), a second call on the unchanged row succeeds and leaves `s'`
exactly as it is: in particular no second booking is ever created. -/
theorem syncBooking_idempotent (s : GroupState) (i : Nat) (s' : GroupState)
    (hfresh : ∀ b ∈ s.bookings, b.id < s.nextBookingId)
    (h : syncBookingForLine s i = some s') :
    syncBookingForLine s' i = some s' := by
  unfold syncBookingForLine at h
  cases hrow : singleRow s.rows i with
  | none => rw [hrow] at h; exact absurd h (by simp)
  | some row =>
    rw [hrow] at h
    simp only [Option.bind_eq_bind, Option.some_bind] at h
    by_cases hAll : hasAllBooking row
    · rw [if_neg (not_not_intro hAll)] at h
      cases hbid : row.bookingId with
      | some b =>
        rw [hbid] at h
        simp only [Option.some.injEq] at h
        subst h
        unfold syncBookingForLine
        rw [show ({ s with bookings := s.bookings.map _ } : GroupState).rows = s.rows from rfl,
          hrow]
        simp only [Option.bind_eq_bind, Option.some_bind]
        rw [if_neg (not_not_intro hAll), hbid]
        simp only [Option.some.injEq]
        congr 1
        rw [List.map_map]
        apply List.map_congr_left
        intro bk _
        by_cases hb : bk.id = b
        · simp only [Function.comp_apply, hb, if_pos]
          rfl
        · simp only [Function.comp_apply, hb, if_neg, not_false_iff]
      | none =>
        rw [hbid] at h
        simp only [Option.some.injEq] at h
        subst h
        unfold syncBookingForLine
        have hrow' : singleRow (updateRowById s.rows i
            (fun r => { r with bookingId := some s.nextBookingId })) i
            = some { row with bookingId := some s.nextBookingId } :=
          singleRow_update _ (fun x => rfl) hrow
        rw [show ({ s with
            bookings := _
            nextBookingId := _
            rows := updateRowById s.rows i
              (fun r => { r with bookingId := some s.nextBookingId }) } : GroupState).rows
          = updateRowById s.rows i (fun r => { r with bookingId := some s.nextBookingId })
          from rfl, hrow']
        simp only [Option.bind_eq_bind, Option.some_bind]
        rw [if_neg (not_not_intro (show hasAllBooking
          { row with bookingId := some s.nextBookingId } from hAll))]
        simp only [Option.some.injEq]
        congr 1
        rw [List.map_append]
        congr 1
        · apply List.map_congr_left ?_ |>.trans (List.map_id _)
          intro bk hbk
          have := hfresh bk hbk
          rw [if_neg (by omega)]
          rfl
        · simp [bookingTitle, bookingNotes]
    · rw [if_pos hAll] at h
      cases hbid : row.bookingId with
      | some b =>
        rw [hbid] at h
        simp only [Option.some.injEq] at h
        subst h
        unfold syncBookingForLine
        have hrow' : singleRow (updateRowById s.rows i
            (fun r => { r with bookingId := none })) i
            = some { row with bookingId := none } :=
          singleRow_update _ (fun x => rfl) hrow
        rw [show ({ s with
            bookings := s.bookings.filter _
            rows := updateRowById s.rows i (fun r => { r with bookingId := none }) }
              : GroupState).rows
          = updateRowById s.rows i (fun r => { r with bookingId := none }) from rfl, hrow']
        simp only [Option.bind_eq_bind, Option.some_bind]
        rw [if_pos (show ¬ hasAllBooking { row with bookingId := none } from hAll)]
      | none =>
        rw [hbid] at h
        simp only [Option.some.injEq] at h
        subst h
        unfold syncBookingForLine
        rw [hrow]
        simp only [Option.bind_eq_bind, Option.some_bind]
        rw [if_pos hAll, hbid]

/-- Witness for C9: re-syncing the Scenario A allocation row (booking
already present) leaves the state untouched. -/
theorem syncBooking_idempotent_witness :
    syncBookingForLine scenarioA_after 2 = some scenarioA_after := by
  have h1 : syncBookingForLine scenarioA_after 2 = some scenarioA_after := by
    simp [syncBookingForLine, singleRow, scenarioA_after, scenarioA_row1, scenarioA_row2,
      hasAllBooking, isFalsyStr, isFalsyDay, scenarioA_booking, bookingTitle, bookingNotes,
      updateRowById, show (0:ℚ) < 3 by norm_num]
  exact syncBooking_idempotent scenarioA_after 2 scenarioA_after
    (by simp [scenarioA_after, scenarioA_booking]) h1

/-! ## C3 & C4: the group invariant

Every row of a reachable group is either the (unique) remainder or an
allocation whose `plannedQuantity` equals its `lineQuantity` and is
positive; quantities and amounts are whole numbers of cents and sum to the
initial `soldTotal` / amount. -/

/-- Shape of any row the engine ever produces. -/
def RowOK (r : LineRow) : Prop :=
  isRemainderSql r = true ∨ (r.plannedQuantity = r.lineQuantity ∧ 0 < r.plannedQuantity)

/-- The group invariant while the group is alive. -/
structure InvLive (g0 : String) (q0 a0 : ℚ) (s : GroupState) : Prop where
  nodup : (s.rows.map (fun r => r.id)).Nodup
  idLt : ∀ r ∈ s.rows, r.id < s.nextRowId
  qsum : qtySum s.rows = q0
  asum : amtSum s.rows = a0
  oneRem : s.rows.countP (fun r => isRemainderSql r) = 1
  cents : ∀ r ∈ s.rows, IsCent r.lineQuantity ∧ IsCent r.amount
  rowOK : ∀ r ∈ s.rows, RowOK r
  grp : ∀ r ∈ s.rows, r.groupId = g0

/-- The invariant: the group was deleted, or it is alive and
well-formed. -/
def GroupInv (g0 : String) (q0 a0 : ℚ) (s : GroupState) : Prop :=
  s.rows = [] ∨ InvLive g0 q0 a0 s

/-- Under `RowOK` the JS falsy-test and the SQL null-filter agree. -/
theorem isRemainderJs_eq_sql {r : LineRow} (h : RowOK r) :
    isRemainderJs r = isRemainderSql r := by
  rcases h with h | ⟨hpq, hpos⟩
  · rw [h, isRemainderJs_of_sql h]
  · have hne : (r.plannedQuantity == 0) = false := by
      simp only [beq_eq_false_iff_ne, ne_eq]
      intro h0
      rw [h0] at hpos
      exact absurd hpos (by norm_num)
    simp [isRemainderJs, isRemainderSql, hne]

theorem qtySum_append (a b : List LineRow) :
    qtySum (a ++ b) = qtySum a + qtySum b := by
  simp [qtySum]

theorem amtSum_append (a b : List LineRow) :
    amtSum (a ++ b) = amtSum a + amtSum b := by
  simp [amtSum]

theorem qtySum_perm {a b : List LineRow} (h : a.Perm b) : qtySum a = qtySum b :=
  (h.map _).sum_eq

theorem amtSum_perm {a b : List LineRow} (h : a.Perm b) : amtSum a = amtSum b :=
  (h.map _).sum_eq

/-- With distinct ids, the id-filter of a present row is that row alone. -/
theorem filter_id_of_nodup {rows : List LineRow}
    (hn : (rows.map (fun r => r.id)).Nodup) {t : LineRow} (ht : t ∈ rows) :
    rows.filter (fun x => x.id == t.id) = [t] := by
  obtain ⟨u, v, rfl⟩ := List.append_of_mem ht
  rw [List.map_append, List.map_cons, List.nodup_middle, List.nodup_cons] at hn
  obtain ⟨hnotmem, _⟩ := hn
  rw [List.filter_append, List.filter_cons]
  have hu : ∀ x ∈ u, (x.id == t.id) = false := by
    intro x hx
    simp only [beq_eq_false_iff_ne, ne_eq]
    intro heq
    exact hnotmem (List.mem_append.mpr (Or.inl (heq ▸ List.mem_map_of_mem _ hx)))
  have hv : ∀ x ∈ v, (x.id == t.id) = false := by
    intro x hx
    simp only [beq_eq_false_iff_ne, ne_eq]
    intro heq
    exact hnotmem (List.mem_append.mpr (Or.inr (heq ▸ List.mem_map_of_mem _ hx)))
  rw [List.filter_eq_nil_iff.mpr (fun x hx => by simp [hu x hx]),
    List.filter_eq_nil_iff.mpr (fun x hx => by simp [hv x hx])]
  simp

/-- Updating by a unique id rewrites exactly the matching row in place. -/
theorem update_unique {rows : List LineRow} {j : Nat} {t : LineRow} (f : LineRow → LineRow)
    (hfil : rows.filter (fun x => x.id == j) = [t]) :
    ∃ p1 p2, rows = p1 ++ t :: p2 ∧
      updateRowById rows j f = p1 ++ f t :: p2 ∧
      (∀ x ∈ p1, (x.id == j) = false) ∧ (∀ x ∈ p2, (x.id == j) = false) := by
  obtain ⟨p1, p2, hdecomp, hp1, hpt, hp2⟩ := List.filter_eq_cons_iff.mp hfil
  rw [List.filter_eq_nil_iff] at hp2
  refine ⟨p1, p2, hdecomp, ?_, fun x hx => by simpa using hp1 x hx,
    fun x hx => by simpa using hp2 x hx⟩
  rw [hdecomp, updateRowById, List.map_append, List.map_cons]
  congr 1
  · apply (List.map_congr_left ?_).trans (List.map_id _)
    intro x hx
    rw [if_neg (by simpa using hp1 x hx)]
    rfl
  · congr 1
    · rw [if_pos (by simpa using hpt)]
    · apply (List.map_congr_left ?_).trans (List.map_id _)
      intro x hx
      rw [if_neg (by simpa using hp2 x hx)]
      rfl

/-! ### Facts about the inserted allocation rows -/

theorem buildAllocRows_ids (base : LineRow) (c : String) :
    ∀ (segs : List (DayRange × ℚ)) (nid : Nat),
      (buildAllocRows base c nid segs).map (fun r => r.id) = List.range' nid segs.length := by
  intro segs
  induction segs with
  | nil => intro nid; simp [buildAllocRows]
  | cons sa rest ih =>
    intro nid
    simp only [buildAllocRows, List.map_cons, List.length_cons, List.range'_succ]
    rw [ih]

theorem buildAllocRows_length (base : LineRow) (c : String)
    (segs : List (DayRange × ℚ)) (nid : Nat) :
    (buildAllocRows base c nid segs).length = segs.length := by
  have h := congrArg List.length (buildAllocRows_ids base c segs nid)
  simpa [List.length_range'] using h

theorem buildAllocRows_qty (base : LineRow) (c : String) :
    ∀ (segs : List (DayRange × ℚ)) (nid : Nat),
      (buildAllocRows base c nid segs).map (fun r => r.lineQuantity)
        = segs.map (fun sa => (sa.1.qty : ℚ)) := by
  intro segs
  induction segs with
  | nil => intro nid; simp [buildAllocRows]
  | cons sa rest ih =>
    intro nid
    simp only [buildAllocRows, List.map_cons]
    rw [ih]

theorem buildAllocRows_amt (base : LineRow) (c : String) :
    ∀ (segs : List (DayRange × ℚ)) (nid : Nat),
      (buildAllocRows base c nid segs).map (fun r => r.amount)
        = segs.map (fun sa => sa.2) := by
  intro segs
  induction segs with
  | nil => intro nid; simp [buildAllocRows]
  | cons sa rest ih =>
    intro nid
    simp only [buildAllocRows, List.map_cons]
    rw [ih]

theorem buildAllocRows_mem (base : LineRow) (c : String) :
    ∀ (segs : List (DayRange × ℚ)) (nid : Nat),
      ∀ x ∈ buildAllocRows base c nid segs,
        x.groupId = base.groupId ∧ x.consultantId = some c ∧
        ∃ sa ∈ segs, x.lineQuantity = (sa.1.qty : ℚ) ∧
          x.plannedQuantity = (sa.1.qty : ℚ) ∧ x.amount = sa.2 := by
  intro segs
  induction segs with
  | nil => intro nid x hx; simp [buildAllocRows] at hx
  | cons sa rest ih =>
    intro nid x hx
    simp only [buildAllocRows, List.mem_cons] at hx
    rcases hx with rfl | hx
    · exact ⟨rfl, rfl, sa, by simp, rfl, rfl, rfl⟩
    · obtain ⟨h1, h2, sa', hsa', h3⟩ := ih (nid + 1) x hx
      exact ⟨h1, h2, sa', by simp [hsa'], h3⟩

/-! ### `syncBookingForLine` touches only `bookingId` -/

/-- A rewrite of rows that can change only the `bookingId` field. -/
def withBookingId (g : LineRow → Option Nat) (r : LineRow) : LineRow :=
  { r with bookingId := g r }

theorem sync_core {s : GroupState} {i : Nat} {s' : GroupState}
    (h : syncBookingForLine s i = some s') :
    (∃ g, s'.rows = s.rows.map (withBookingId g)) ∧ s'.nextRowId = s.nextRowId := by
  unfold syncBookingForLine at h
  cases hrow : singleRow s.rows i with
  | none => rw [hrow] at h; exact absurd h (by simp)
  | some row =>
    rw [hrow] at h
    simp only [Option.bind_eq_bind, Option.some_bind] at h
    have hid : ∀ (v : Option Nat),
        updateRowById s.rows i (fun r => { r with bookingId := v })
          = s.rows.map (withBookingId (fun r => if r.id = i then v else r.bookingId)) := by
      intro v
      rw [updateRowById]
      apply List.map_congr_left
      intro x _
      by_cases hx : x.id = i <;> simp [hx, withBookingId]
    have hidmap : s.rows = s.rows.map (withBookingId (fun r => r.bookingId)) :=
      ((List.map_congr_left (fun r _ => rfl)).trans (List.map_id _)).symm
    by_cases hAll : hasAllBooking row
    · rw [if_neg (not_not_intro hAll)] at h
      cases hbid : row.bookingId with
      | some b =>
        rw [hbid] at h
        simp only [Option.some.injEq] at h
        subst h
        exact ⟨⟨_, hidmap⟩, rfl⟩
      | none =>
        rw [hbid] at h
        simp only [Option.some.injEq] at h
        subst h
        exact ⟨⟨_, hid (some s.nextBookingId)⟩, rfl⟩
    · rw [if_pos hAll] at h
      cases hbid : row.bookingId with
      | some b =>
        rw [hbid] at h
        simp only [Option.some.injEq] at h
        subst h
        exact ⟨⟨_, hid none⟩, rfl⟩
      | none =>
        rw [hbid] at h
        simp only [Option.some.injEq] at h
        subst h
        exact ⟨⟨_, hidmap⟩, rfl⟩

theorem foldSyncs_core {ids : List Nat} :
    ∀ {s s' : GroupState}, foldSyncs s ids = some s' →
      (∃ g, s'.rows = s.rows.map (withBookingId g)) ∧ s'.nextRowId = s.nextRowId := by
  induction ids with
  | nil =>
    intro s s' h
    simp only [foldSyncs, Option.some.injEq] at h
    subst h
    exact ⟨⟨fun r => r.bookingId,
      ((List.map_congr_left (fun r _ => rfl)).trans (List.map_id _)).symm⟩, rfl⟩
  | cons i rest ih =>
    intro s s' h
    simp only [foldSyncs, Option.bind_eq_bind] at h
    cases h1 : syncBookingForLine s i with
    | none => rw [h1] at h; exact absurd h (by simp)
    | some s1 =>
      rw [h1] at h
      simp only [Option.some_bind] at h
      obtain ⟨⟨g2, hg2⟩, hn2⟩ := ih h
      obtain ⟨⟨g1, hg1⟩, hn1⟩ := sync_core h1
      refine ⟨⟨fun r => g2 (withBookingId g1 r), ?_⟩, hn2.trans hn1⟩
      rw [hg2, hg1, List.map_map]
      apply List.map_congr_left
      intro x _
      rfl

/-- The invariant ignores `bookingId`, so it transfers along
booking-only rewrites of the rows. -/
theorem invLive_map_bookingId {g0 : String} {q0 a0 : ℚ} {s t : GroupState}
    (g : LineRow → Option Nat)
    (hrows : t.rows = s.rows.map (withBookingId g))
    (hnext : t.nextRowId = s.nextRowId)
    (h : InvLive g0 q0 a0 s) : InvLive g0 q0 a0 t := by
  refine ⟨?_, ?_, ?_, ?_, ?_, ?_, ?_, ?_⟩
  · rw [hrows, List.map_map]
    exact h.nodup
  · intro r hr
    rw [hrows, List.mem_map] at hr
    obtain ⟨x, hx, rfl⟩ := hr
    rw [hnext]
    exact h.idLt x hx
  · rw [hrows, qtySum, List.map_map]
    exact h.qsum
  · rw [hrows, amtSum, List.map_map]
    exact h.asum
  · rw [hrows, List.countP_map]
    exact h.oneRem
  · intro r hr
    rw [hrows, List.mem_map] at hr
    obtain ⟨x, hx, rfl⟩ := hr
    exact h.cents x hx
  · intro r hr
    rw [hrows, List.mem_map] at hr
    obtain ⟨x, hx, rfl⟩ := hr
    exact h.rowOK x hx
  · intro r hr
    rw [hrows, List.mem_map] at hr
    obtain ⟨x, hx, rfl⟩ := hr
    exact h.grp x hx

/-! ### Step preservation -/

/-- On any invariant-satisfying state, a successful
`reportProjectLineRemainder` changes nothing: the target is either the
remainder (silent no-op) or an allocation with `plannedQuantity =
lineQuantity`, which the bounds check rejects. -/
theorem report_eq_of_inv {g0 : String} {q0 a0 : ℚ} {s s' : GroupState} {i : Nat}
    (hInv : GroupInv g0 q0 a0 s) (h : reportProjectLineRemainder s i = some s') :
    s' = s := by
  unfold reportProjectLineRemainder at h
  cases hrow : singleRow s.rows i with
  | none => rw [hrow] at h; exact absurd h (by simp)
  | some line =>
    rw [hrow] at h
    simp only [Option.bind_eq_bind, Option.some_bind] at h
    have hmem := (singleRow_props hrow).1
    rcases hInv with hnil | hlive
    · rw [hnil] at hmem; exact absurd hmem (by simp)
    · have hOK := hlive.rowOK line hmem
      by_cases hjs : isRemainderJs line = true
      · rw [if_pos hjs] at h
        simp only [Option.some.injEq] at h
        exact h.symm
      · rw [if_neg hjs] at h
        rcases hOK with hsql | ⟨hpq, hpos⟩
        · exact absurd (isRemainderJs_of_sql hsql) hjs
        · have h1 : ¬ ¬ (0 < line.lineQuantity) := not_not_intro (hpq ▸ hpos)
          have h2 : ¬ ¬ ¬ (0 < line.plannedQuantity ∧
              line.plannedQuantity < line.lineQuantity) := by
            apply not_not_intro
            rintro ⟨_, hlt⟩
            rw [hpq] at hlt
            exact lt_irrefl _ hlt
          rw [if_neg h1, if_pos (not_not.mp h2)] at h
          exact absurd h (by simp)

/-- A successful `deleteProjectLine` preserves the group invariant:
deleting the remainder deletes the whole group, and deleting an allocation
moves its quantity and amount onto the unique remainder and removes one
row. -/
theorem delete_preserves {g0 : String} {q0 a0 : ℚ} {s s' : GroupState} {i : Nat}
    (hInv : GroupInv g0 q0 a0 s) (h : deleteProjectLine s i = some s') :
    GroupInv g0 q0 a0 s' := by
  unfold deleteProjectLine at h
  cases hrow : singleRow s.rows i with
  | none => rw [hrow] at h; exact absurd h (by simp)
  | some line =>
    rw [hrow] at h
    simp only [Option.bind_eq_bind, Option.some_bind] at h
    obtain ⟨hmem, hlineid⟩ := singleRow_props hrow
    rcases hInv with hnil | hlive
    · rw [hnil] at hmem; exact absurd hmem (by simp)
    by_cases hjs : isRemainderJs line = true
    · -- remainder: the whole group is removed
      rw [if_pos hjs] at h
      simp only [Option.some.injEq] at h
      subst h
      left
      show List.filter _ s.rows = []
      rw [List.filter_eq_nil_iff]
      intro r hr
      simp [hlive.grp r hr, hlive.grp line hmem]
    · -- allocation: reinject into the unique remainder
      rw [if_neg hjs] at h
      have hsql_line : isRemainderSql line = false := by
        have := isRemainderJs_eq_sql (hlive.rowOK line hmem)
        rw [← this]
        simpa using hjs
      have hfcong : s.rows.filter (fun r => (r.groupId == line.groupId) && isRemainderSql r)
          = s.rows.filter (fun r => isRemainderSql r) := by
        apply List.filter_congr
        intro x hx
        simp [hlive.grp x hx, hlive.grp line hmem]
      have hlen : (s.rows.filter (fun r => isRemainderSql r)).length = 1 := by
        rw [← List.countP_eq_length_filter]
        exact hlive.oneRem
      obtain ⟨rem, hrem⟩ := List.length_eq_one.mp hlen
      rw [hfcong, hrem] at h
      simp only [maybeSingle, Option.some_bind] at h
      simp only [Option.some.injEq] at h
      subst h
      right
      -- facts about rem and line
      have hremf : rem ∈ s.rows ∧ isRemainderSql rem = true := by
        have : rem ∈ s.rows.filter (fun r => isRemainderSql r) := by rw [hrem]; simp
        exact List.mem_filter.mp this
      have hremid : ¬ rem.id = i := by
        intro hid
        have h1 : rem ∈ s.rows.filter (fun x => x.id == i) := by
          rw [List.mem_filter]
          exact ⟨hremf.1, by simpa using hid⟩
        rw [singleRow_filter hrow, List.mem_singleton] at h1
        rw [h1] at hremf
        rw [hremf.2] at hsql_line
        exact absurd hsql_line (by simp)
      -- decompose the update at rem
      obtain ⟨p1, p2, hdecomp, hupd, hp1, hp2⟩ := update_unique
        (fun x => { x with
          lineQuantity := round2 (rem.lineQuantity + line.lineQuantity)
          amount := round2 (rem.amount + line.amount) })
        (filter_id_of_nodup hlive.nodup hremf.1)
      -- locate line inside p1 ++ p2
      have hfl : (p1 ++ p2).filter (fun x => x.id == i) = [line] := by
        have hsingle := singleRow_filter hrow
        rw [hdecomp, List.filter_append, List.filter_cons] at hsingle
        rw [if_neg (by simpa using hremid)] at hsingle
        rw [List.filter_append]
        exact hsingle
      obtain ⟨u, v, huv, hu, hlinei, hv⟩ := List.filter_eq_cons_iff.mp hfl
      rw [List.filter_eq_nil_iff] at hv
      -- the rows after the operation, up to permutation
      have hperm : (updateRowById s.rows rem.id (fun x =>
          { x with
            lineQuantity := round2 (rem.lineQuantity + line.lineQuantity)
            amount := round2 (rem.amount + line.amount) })).filter (fun x => !(x.id == i))
          |>.Perm ({ rem with
            lineQuantity := round2 (rem.lineQuantity + line.lineQuantity)
            amount := round2 (rem.amount + line.amount) } :: (u ++ v)) := by
        rw [hupd, List.filter_append, List.filter_cons]
        rw [if_pos (by simp [hremid])]
        have hmid : (List.filter (fun x => !(x.id == i)) p1)
            ++ { rem with
                lineQuantity := round2 (rem.lineQuantity + line.lineQuantity)
                amount := round2 (rem.amount + line.amount) }
              :: List.filter (fun x => !(x.id == i)) p2
            |>.Perm ({ rem with
                lineQuantity := round2 (rem.lineQuantity + line.lineQuantity)
                amount := round2 (rem.amount + line.amount) }
              :: (List.filter (fun x => !(x.id == i)) p1
                ++ List.filter (fun x => !(x.id == i)) p2)) := List.perm_middle
        refine hmid.trans (List.Perm.cons _ ?_)
        rw [← List.filter_append, huv, List.filter_append, List.filter_cons]
        rw [if_neg (by simp [by simpa using hlinei])]
        rw [List.filter_eq_self.mpr (fun x hx => by simp [hu x hx]),
          List.filter_eq_self.mpr (fun x hx => by simp [hv x hx])]
      -- the original rows, up to permutation
      have hperm0 : s.rows.Perm (rem :: line :: (u ++ v)) := by
        rw [hdecomp]
        refine List.perm_middle.trans (List.Perm.cons _ ?_)
        rw [huv]
        exact List.perm_middle
      -- membership helper
      have hsubmem : ∀ x, x ∈ u ++ v → x ∈ s.rows := by
        intro x hx
        have : x ∈ rem :: line :: (u ++ v) := by simp [hx]
        exact hperm0.mem_iff.mpr this
      have hcent_rem := hlive.cents rem hremf.1
      have hcent_line := hlive.cents line hmem
      constructor
      · -- nodup ids
        show (List.map _ _).Nodup
        rw [(hperm.map (fun r => r.id)).nodup_iff]
        have h0 : ((rem :: line :: (u ++ v)).map (fun r => r.id)).Nodup := by
          rw [← (hperm0.map (fun r => r.id)).nodup_iff]
          exact hlive.nodup
        rw [List.map_cons, List.nodup_cons] at h0 ⊢
        obtain ⟨h1, h2⟩ := h0
        rw [List.map_cons, List.nodup_cons] at h2
        refine ⟨?_, h2.2⟩
        intro hc
        exact h1 (by rw [List.map_cons]; exact List.mem_cons_of_mem _ hc)
      · -- id bounds
        intro r hr
        rw [hperm.mem_iff] at hr
        rcases List.mem_cons.mp hr with rfl | hr
        · exact hlive.idLt rem hremf.1
        · exact hlive.idLt r (hsubmem r hr)
      · -- quantity conservation
        show qtySum _ = q0
        rw [qtySum_perm hperm]
        have h0 := hlive.qsum
        rw [qtySum_perm hperm0] at h0
        simp only [qtySum, List.map_cons, List.sum_cons] at h0 ⊢
        rw [round2_isCent (isCent_add hcent_rem.1 hcent_line.1)]
        linarith
      · -- amount conservation
        show amtSum _ = a0
        rw [amtSum_perm hperm]
        have h0 := hlive.asum
        rw [amtSum_perm hperm0] at h0
        simp only [amtSum, List.map_cons, List.sum_cons] at h0 ⊢
        rw [round2_isCent (isCent_add hcent_rem.2 hcent_line.2)]
        linarith
      · -- exactly one remainder
        show List.countP _ _ = 1
        rw [hperm.countP_eq]
        have h0 := hlive.oneRem
        rw [hperm0.countP_eq] at h0
        simp only [List.countP_cons] at h0 ⊢
        have hfr : isRemainderSql { rem with
            lineQuantity := round2 (rem.lineQuantity + line.lineQuantity)
            amount := round2 (rem.amount + line.amount) } = isRemainderSql rem := rfl
        rw [hfr]
        rw [hremf.2] at h0 ⊢
        rw [hsql_line] at h0
        simpa using h0
      · -- cent amounts
        intro r hr
        rw [hperm.mem_iff] at hr
        rcases List.mem_cons.mp hr with rfl | hr
        · exact ⟨isCent_round2 _, isCent_round2 _⟩
        · exact hlive.cents r (hsubmem r hr)
      · -- row shapes
        intro r hr
        rw [hperm.mem_iff] at hr
        rcases List.mem_cons.mp hr with rfl | hr
        · exact Or.inl hremf.2
        · exact hlive.rowOK r (hsubmem r hr)
      · -- group ids
        intro r hr
        rw [hperm.mem_iff] at hr
        rcases List.mem_cons.mp hr with rfl | hr
        · exact hlive.grp rem hremf.1
        · exact hlive.grp r (hsubmem r hr)

/-- What a successful `allocatePrep` guarantees. -/
theorem allocatePrep_facts {s : GroupState} {i : Nat} {days : List Nat} {p : AllocPrep}
    (hp : allocatePrep s i days = some p) :
    singleRow s.rows i = some p.base ∧
    isRemainderJs p.base = true ∧
    0 < p.base.lineQuantity ∧
    ¬ (p.base.lineQuantity < ((sortedDedup days).length : ℚ)) ∧
    p.segs = (allocSegments p.base.amount p.base.lineQuantity
      (groupIntoConsecutiveRanges (sortedDedup days)) 0 0).1 ∧
    p.allocatedAmountSum = (allocSegments p.base.amount p.base.lineQuantity
      (groupIntoConsecutiveRanges (sortedDedup days)) 0 0).2.1 ∧
    p.allocatedQtySum = (allocSegments p.base.amount p.base.lineQuantity
      (groupIntoConsecutiveRanges (sortedDedup days)) 0 0).2.2 ∧
    groupIntoConsecutiveRanges (sortedDedup days) ≠ [] := by
  unfold allocatePrep at hp
  by_cases h1 : (sortedDedup days).isEmpty
  · rw [if_pos h1] at hp; exact absurd hp (by simp)
  · rw [if_neg h1] at hp
    cases hrow : singleRow s.rows i with
    | none => rw [hrow] at hp; exact absurd hp (by simp)
    | some base =>
      rw [hrow] at hp
      simp only [Option.bind_eq_bind, Option.some_bind] at hp
      by_cases h2 : isRemainderJs base = false
      · rw [if_pos h2] at hp; exact absurd hp (by simp)
      · rw [if_neg h2] at hp
        by_cases h3 : ¬ (0 < base.soldTotal)
        · rw [if_pos h3] at hp; exact absurd hp (by simp)
        · rw [if_neg h3] at hp
          by_cases h4 : ¬ (0 < base.lineQuantity)
          · rw [if_pos h4] at hp; exact absurd hp (by simp)
          · rw [if_neg h4] at hp
            by_cases h5 : base.lineQuantity < ((sortedDedup days).length : ℚ)
            · rw [if_pos h5] at hp; exact absurd hp (by simp)
            · rw [if_neg h5] at hp
              by_cases h6 : (groupIntoConsecutiveRanges (sortedDedup days)).isEmpty
              · rw [if_pos h6] at hp; exact absurd hp (by simp)
              · rw [if_neg h6] at hp
                simp only [Option.some.injEq] at hp
                subst hp
                refine ⟨rfl, by simpa using h2, not_not.mp h4, h5, rfl, rfl, rfl, ?_⟩
                simpa [List.isEmpty_iff] using h6

/-- A successful `allocateProjectLineDays` preserves the group
invariant. -/
theorem allocate_preserves {g0 : String} {q0 a0 : ℚ} {s s' : GroupState}
    {i : Nat} {c : String} {days : List Nat}
    (hInv : GroupInv g0 q0 a0 s) (h : allocateProjectLineDays s i c days = some s') :
    GroupInv g0 q0 a0 s' := by
  unfold allocateProjectLineDays at h
  cases hp : allocatePrep s i days with
  | none => rw [hp] at h; exact absurd h (by simp)
  | some p =>
    rw [hp] at h
    simp only [Option.bind_eq_bind, Option.some_bind, insertAllocRows] at h
    obtain ⟨hrow, hjs, hqpos, hnle, hsegs, haS, hnQ, hrne⟩ := allocatePrep_facts hp
    obtain ⟨hmem, hbaseid⟩ := singleRow_props hrow
    rcases hInv with hnil | hlive
    · rw [hnil] at hmem; exact absurd hmem (by simp)
    -- notation
    have hsql_base : isRemainderSql p.base = true := by
      rcases hlive.rowOK p.base hmem with hsql | ⟨hpq, hpos⟩
      · exact hsql
      · rw [isRemainderJs_eq_sql (Or.inr ⟨hpq, hpos⟩)] at hjs
        exact hjs
    have hcent_base := hlive.cents p.base hmem
    -- facts about the new rows
    have hqty_ranges : ((groupIntoConsecutiveRanges (sortedDedup days)).map
        (fun r => (r.qty : ℚ))).sum = (((sortedDedup days).length : ℕ) : ℚ) := by
      have h1 := ranges_qty_sum (sortedDedup days)
      rw [sortedDedup_idem] at h1
      rw [← h1, Nat.cast_list_sum, List.map_map]
      rfl
    have hnQval : p.allocatedQtySum = (((sortedDedup days).length : ℕ) : ℚ) := by
      rw [hnQ, allocSegments_qtySum, hqty_ranges, zero_add]
    have hcent_nQ : IsCent p.allocatedQtySum := by
      rw [hnQval]; exact isCent_natCast _
    have haSsum : p.allocatedAmountSum = (p.segs.map (fun sa => sa.2)).sum := by
      rw [haS, allocSegments_amountSum _ _ _ _ _ isCent_zero, zero_add, hsegs]
    have hcent_segs : ∀ sa ∈ p.segs, IsCent sa.2 := by
      intro sa hsa
      rw [hsegs] at hsa
      exact allocSegments_amounts_cent _ _ _ _ _ sa hsa
    have hcent_aS : IsCent p.allocatedAmountSum := by
      rw [haSsum]
      exact isCent_sum (by
        intro x hx
        rw [List.mem_map] at hx
        obtain ⟨sa, hsa, rfl⟩ := hx
        exact hcent_segs sa hsa)
    have hqty_pos : ∀ sa ∈ p.segs, 0 < sa.1.qty := by
      intro sa hsa
      apply ranges_qty_pos (l := sortedDedup days)
      have : sa.1 ∈ p.segs.map Prod.fst := List.mem_map_of_mem _ hsa
      rw [hsegs, allocSegments_map_fst] at this
      exact this
    -- the inserted rows
    set newRows := buildAllocRows p.base c s.nextRowId p.segs with hnewdef
    have hnew_ids : newRows.map (fun r => r.id)
        = List.range' s.nextRowId p.segs.length := buildAllocRows_ids ..
    have hnew_sql : ∀ x ∈ newRows, isRemainderSql x = false := by
      intro x hx
      obtain ⟨_, hcons, _⟩ := buildAllocRows_mem p.base c p.segs s.nextRowId x hx
      simp [isRemainderSql, hcons]
    have hnew_qsum : qtySum newRows = p.allocatedQtySum := by
      rw [qtySum, buildAllocRows_qty, hnQval]
      rw [show p.segs.map (fun sa => (sa.1.qty : ℚ))
          = (groupIntoConsecutiveRanges (sortedDedup days)).map (fun r => (r.qty : ℚ)) by
        rw [show (groupIntoConsecutiveRanges (sortedDedup days)) = p.segs.map Prod.fst by
          rw [hsegs, allocSegments_map_fst], List.map_map]
        rfl]
      exact hqty_ranges
    have hnew_asum : amtSum newRows = p.allocatedAmountSum := by
      rw [amtSum, buildAllocRows_amt, haSsum]
    -- ids of the combined list are distinct
    have hs1_nodup : (((s.rows ++ newRows).map (fun r => r.id))).Nodup := by
      rw [List.map_append, List.nodup_append]
      refine ⟨hlive.nodup, ?_, ?_⟩
      · rw [hnew_ids]
        exact List.nodup_range' ..
      · intro a ha hb
        rw [List.mem_map] at ha
        obtain ⟨x, hx, rfl⟩ := ha
        rw [hnew_ids, List.mem_range'_1] at hb
        have := hlive.idLt x hx
        omega
    have hmem1 : p.base ∈ s.rows ++ newRows := List.mem_append.mpr (Or.inl hmem)
    obtain ⟨P1, P2, hdecomp, hupd, hP1, hP2⟩ := update_unique
      (fun r => { r with
        lineQuantity := round2 (p.base.lineQuantity - p.allocatedQtySum)
        amount := round2 (p.base.amount - p.allocatedAmountSum) })
      (filter_id_of_nodup hs1_nodup hmem1)
    -- invariant for the pre-sync state s2
    have hpermU : (updateRowById (s.rows ++ newRows) p.base.id (fun r =>
        { r with
          lineQuantity := round2 (p.base.lineQuantity - p.allocatedQtySum)
          amount := round2 (p.base.amount - p.allocatedAmountSum) })).Perm
        ({ p.base with
          lineQuantity := round2 (p.base.lineQuantity - p.allocatedQtySum)
          amount := round2 (p.base.amount - p.allocatedAmountSum) } :: (P1 ++ P2)) := by
      rw [hupd]
      exact List.perm_middle
    have hperm1 : (s.rows ++ newRows).Perm (p.base :: (P1 ++ P2)) := by
      rw [hdecomp]
      exact List.perm_middle
    have hsub12 : ∀ x, x ∈ P1 ++ P2 → x ∈ s.rows ++ newRows := by
      intro x hx
      exact hperm1.mem_iff.mpr (List.mem_cons_of_mem _ hx)
    have hq_exact : round2 (p.base.lineQuantity - p.allocatedQtySum)
        = p.base.lineQuantity - p.allocatedQtySum :=
      round2_isCent (isCent_sub hcent_base.1 hcent_nQ)
    have ha_exact : round2 (p.base.amount - p.allocatedAmountSum)
        = p.base.amount - p.allocatedAmountSum :=
      round2_isCent (isCent_sub hcent_base.2 hcent_aS)
    have hq_cent_new : round2 (p.base.lineQuantity - p.allocatedQtySum)
        = p.base.lineQuantity - p.allocatedQtySum :=
      round2_isCent (isCent_sub hcent_base.1 hcent_nQ)
    have ha_cent_new : round2 (p.base.amount - p.allocatedAmountSum)
        = p.base.amount - p.allocatedAmountSum :=
      round2_isCent (isCent_sub hcent_base.2 hcent_aS)
    have hwide : ∀ x ∈ s.rows ++ newRows, x.id < s.nextRowId + newRows.length := by
      intro x hx
      rcases List.mem_append.mp hx with hx | hx
      · have := hlive.idLt x hx
        omega
      · have hxid : x.id ∈ newRows.map (fun r => r.id) := List.mem_map_of_mem _ hx
        rw [hnew_ids, List.mem_range'_1] at hxid
        rw [buildAllocRows_length]
        omega
    have hA : ((updateRowById (s.rows ++ newRows) p.base.id (fun r =>
        { r with
          lineQuantity := round2 (p.base.lineQuantity - p.allocatedQtySum)
          amount := round2 (p.base.amount - p.allocatedAmountSum) })).map
          (fun r => r.id)).Nodup := by
      rw [(hpermU.map (fun r => r.id)).nodup_iff]
      have h0 : ((p.base :: (P1 ++ P2)).map (fun r => r.id)).Nodup := by
        rw [← (hperm1.map (fun r => r.id)).nodup_iff]
        exact hs1_nodup
      rw [List.map_cons, List.nodup_cons] at h0 ⊢
      exact h0
    have hB : ∀ r ∈ updateRowById (s.rows ++ newRows) p.base.id (fun r =>
        { r with
          lineQuantity := round2 (p.base.lineQuantity - p.allocatedQtySum)
          amount := round2 (p.base.amount - p.allocatedAmountSum) }),
        r.id < s.nextRowId + newRows.length := by
      intro r hr
      rw [hpermU.mem_iff] at hr
      rcases List.mem_cons.mp hr with rfl | hr
      · exact hwide p.base hmem1
      · exact hwide r (hsub12 r hr)
    have hC : qtySum (updateRowById (s.rows ++ newRows) p.base.id (fun r =>
        { r with
          lineQuantity := round2 (p.base.lineQuantity - p.allocatedQtySum)
          amount := round2 (p.base.amount - p.allocatedAmountSum) })) = q0 := by
      rw [qtySum_perm hpermU]
      have h1 : qtySum (s.rows ++ newRows) = q0 + p.allocatedQtySum := by
        rw [qtySum_append, hlive.qsum, hnew_qsum]
      rw [qtySum_perm hperm1] at h1
      simp only [qtySum, List.map_cons, List.sum_cons] at h1 ⊢
      rw [hq_cent_new]
      linarith
    have hD : amtSum (updateRowById (s.rows ++ newRows) p.base.id (fun r =>
        { r with
          lineQuantity := round2 (p.base.lineQuantity - p.allocatedQtySum)
          amount := round2 (p.base.amount - p.allocatedAmountSum) })) = a0 := by
      rw [amtSum_perm hpermU]
      have h1 : amtSum (s.rows ++ newRows) = a0 + p.allocatedAmountSum := by
        rw [amtSum_append, hlive.asum, hnew_asum]
      rw [amtSum_perm hperm1] at h1
      simp only [amtSum, List.map_cons, List.sum_cons] at h1 ⊢
      rw [ha_cent_new]
      linarith
    have hE : (updateRowById (s.rows ++ newRows) p.base.id (fun r =>
        { r with
          lineQuantity := round2 (p.base.lineQuantity - p.allocatedQtySum)
          amount := round2 (p.base.amount - p.allocatedAmountSum) })).countP
          (fun r => isRemainderSql r) = 1 := by
      rw [hpermU.countP_eq]
      have h1 : (s.rows ++ newRows).countP (fun r => isRemainderSql r) = 1 := by
        rw [List.countP_append, hlive.oneRem, List.countP_eq_length_filter,
          List.filter_eq_nil_iff.mpr (fun x hx => by simp [hnew_sql x hx])]
        rfl
      rw [hperm1.countP_eq] at h1
      simp only [List.countP_cons] at h1 ⊢
      have hfr : isRemainderSql { p.base with
          lineQuantity := round2 (p.base.lineQuantity - p.allocatedQtySum)
          amount := round2 (p.base.amount - p.allocatedAmountSum) }
          = isRemainderSql p.base := rfl
      rw [hfr, hsql_base]
      rw [hsql_base] at h1
      simpa using h1
    have hF : ∀ r ∈ updateRowById (s.rows ++ newRows) p.base.id (fun r =>
        { r with
          lineQuantity := round2 (p.base.lineQuantity - p.allocatedQtySum)
          amount := round2 (p.base.amount - p.allocatedAmountSum) }),
        IsCent r.lineQuantity ∧ IsCent r.amount := by
      intro r hr
      rw [hpermU.mem_iff] at hr
      rcases List.mem_cons.mp hr with rfl | hr
      · exact ⟨isCent_round2 _, isCent_round2 _⟩
      · rcases List.mem_append.mp (hsub12 r hr) with hx | hx
        · exact hlive.cents r hx
        · obtain ⟨_, _, sa, hsa, hq, _, hamt⟩ :=
            buildAllocRows_mem p.base c p.segs s.nextRowId r hx
          exact ⟨hq ▸ isCent_natCast _, hamt ▸ hcent_segs sa hsa⟩
    have hG : ∀ r ∈ updateRowById (s.rows ++ newRows) p.base.id (fun r =>
        { r with
          lineQuantity := round2 (p.base.lineQuantity - p.allocatedQtySum)
          amount := round2 (p.base.amount - p.allocatedAmountSum) }), RowOK r := by
      intro r hr
      rw [hpermU.mem_iff] at hr
      rcases List.mem_cons.mp hr with rfl | hr
      · exact Or.inl hsql_base
      · rcases List.mem_append.mp (hsub12 r hr) with hx | hx
        · exact hlive.rowOK r hx
        · obtain ⟨_, _, sa, hsa, hq, hpq, _⟩ :=
            buildAllocRows_mem p.base c p.segs s.nextRowId r hx
          refine Or.inr ⟨hpq.trans hq.symm, ?_⟩
          rw [hpq]
          exact_mod_cast hqty_pos sa hsa
    have hH : ∀ r ∈ updateRowById (s.rows ++ newRows) p.base.id (fun r =>
        { r with
          lineQuantity := round2 (p.base.lineQuantity - p.allocatedQtySum)
          amount := round2 (p.base.amount - p.allocatedAmountSum) }), r.groupId = g0 := by
      intro r hr
      rw [hpermU.mem_iff] at hr
      rcases List.mem_cons.mp hr with rfl | hr
      · exact hlive.grp p.base hmem
      · rcases List.mem_append.mp (hsub12 r hr) with hx | hx
        · exact hlive.grp r hx
        · obtain ⟨hg, _⟩ := buildAllocRows_mem p.base c p.segs s.nextRowId r hx
          rw [hg]
          exact hlive.grp p.base hmem
    have hInv2 : InvLive g0 q0 a0
        { rows := updateRowById (s.rows ++ newRows) p.base.id (fun r =>
            { r with
              lineQuantity := round2 (p.base.lineQuantity - p.allocatedQtySum)
              amount := round2 (p.base.amount - p.allocatedAmountSum) })
          bookings := s.bookings
          nextRowId := s.nextRowId + newRows.length
          nextBookingId := s.nextBookingId
          clientNumber := s.clientNumber
          clientName := s.clientName
          projectName := s.projectName
          articleName := s.articleName } := ⟨hA, hB, hC, hD, hE, hF, hG, hH⟩
    -- transfer through the booking syncs
    obtain ⟨⟨g, hg⟩, hn⟩ := foldSyncs_core h
    right
    exact invLive_map_bookingId g hg hn hInv2

/-- Any single successful engine operation preserves the group
invariant. -/
theorem engineStep_preserves {g0 : String} {q0 a0 : ℚ} {s s' : GroupState}
    (hInv : GroupInv g0 q0 a0 s) (hstep : EngineStep s s') : GroupInv g0 q0 a0 s' := by
  cases hstep with
  | alloc lineId consultantId days h => exact allocate_preserves hInv h
  | deleteLine i h => exact delete_preserves hInv h
  | report i h => rw [report_eq_of_inv hInv h]; exact hInv

/-- The freshly created group satisfies the invariant. -/
theorem initial_inv (g0 : String) (rid : Nat) (q0 a0 : ℚ) (cn cl pn an : String)
    (hq : IsCent q0) (ha : IsCent a0) :
    GroupInv g0 q0 a0 (initialGroup g0 rid q0 a0 cn cl pn an) := by
  right
  refine ⟨?_, ?_, ?_, ?_, ?_, ?_, ?_, ?_⟩
  · simp [initialGroup]
  · intro r hr
    simp only [initialGroup, List.mem_singleton] at hr
    subst hr
    simp [initialGroup]
  · simp [qtySum, initialGroup]
  · simp [amtSum, initialGroup]
  · simp [initialGroup, isRemainderSql]
  · intro r hr
    simp only [initialGroup, List.mem_singleton] at hr
    subst hr
    exact ⟨hq, ha⟩
  · intro r hr
    simp only [initialGroup, List.mem_singleton] at hr
    subst hr
    exact Or.inl (by simp [isRemainderSql])
  · intro r hr
    simp only [initialGroup, List.mem_singleton] at hr
    subst hr
    rfl

/-- The invariant holds in every state reachable from the initial
one-remainder group. -/
theorem reachable_inv {g0 : String} {rid : Nat} {q0 a0 : ℚ} {cn cl pn an : String}
    {s : GroupState} (hq : IsCent q0) (ha : IsCent a0)
    (hr : EngineReachable (initialGroup g0 rid q0 a0 cn cl pn an) s) :
    GroupInv g0 q0 a0 s := by
  induction hr with
  | refl => exact initial_inv g0 rid q0 a0 cn cl pn an hq ha
  | tail _ hstep ih => exact engineStep_preserves ih hstep

/-- **C3**: for a group created with whole-cent `soldTotal` and amount,
after any sequence of successful allocate / delete-line /
report-remainder operations — while the group still exists — the
`lineQuantity` of its rows sums exactly to `soldTotal` and the `amount`
sums exactly to the original amount (in particular within one cent). -/
theorem quantity_amount_conservation (g0 : String) (rid : Nat) (q0 a0 : ℚ)
    (cn cl pn an : String) (hq : IsCent q0) (ha : IsCent a0) (s : GroupState)
    (hr : EngineReachable (initialGroup g0 rid q0 a0 cn cl pn an) s)
    (hne : s.rows ≠ []) :
    qtySum s.rows = q0 ∧ amtSum s.rows = a0 ∧ |amtSum s.rows - a0| ≤ 1/100 := by
  rcases reachable_inv hq ha hr with hnil | hlive
  · exact absurd hnil hne
  · refine ⟨hlive.qsum, hlive.asum, ?_⟩
    rw [hlive.asum]
    simp

/-- Witness for C3: Scenario A's state after one allocation still sums to
`soldTotal = 5` and amount `500`. -/
theorem quantity_amount_conservation_witness :
    qtySum scenarioA_after.rows = 5 ∧ amtSum scenarioA_after.rows = 500 ∧
    |amtSum scenarioA_after.rows - 500| ≤ 1/100 :=
  quantity_amount_conservation "g1" 1 5 500 "C001" "Acme" "Proj" "Art"
    ⟨500, by norm_num⟩ ⟨50000, by norm_num⟩ scenarioA_after
    (EngineReachable.tail EngineReachable.refl
      (EngineStep.alloc 1 "R1" [10, 11, 12] allocate_scenarioA_eval))
    (by simp [scenarioA_after])

/-- **C4**: for a group created in the initial one-remainder state, after
any sequence of successful allocate / delete-line / report-remainder
operations, exactly one row of the group (while the group exists)
satisfies the remainder predicate (`resourceId`, `plannedStart`,
`plannedEnd` all null and `plannedQuantity = 0`). -/
theorem single_remainder_invariant (g0 : String) (rid : Nat) (q0 a0 : ℚ)
    (cn cl pn an : String) (hq : IsCent q0) (ha : IsCent a0) (s : GroupState)
    (hr : EngineReachable (initialGroup g0 rid q0 a0 cn cl pn an) s)
    (hne : s.rows ≠ []) :
    s.rows.countP (fun r => isRemainderSql r) = 1 := by
  rcases reachable_inv hq ha hr with hnil | hlive
  · exact absurd hnil hne
  · exact hlive.oneRem

/-- Witness for C4: Scenario A's state after one allocation has exactly
one remainder row. -/
theorem single_remainder_invariant_witness :
    scenarioA_after.rows.countP (fun r => isRemainderSql r) = 1 :=
  single_remainder_invariant "g1" 1 5 500 "C001" "Acme" "Proj" "Art"
    ⟨500, by norm_num⟩ ⟨50000, by norm_num⟩ scenarioA_after
    (EngineReachable.tail EngineReachable.refl
      (EngineStep.alloc 1 "R1" [10, 11, 12] allocate_scenarioA_eval))
    (by simp [scenarioA_after])

end ERPV2
